import Mathlib

/-!
# Intercepting proxy: capture store, wire codec and proxy engine

A shallow embedding of the Go sources under `proxy2/` (packages `repo`,
`pkg/http_utils`, `pkg/proxy`, `pkg/api`) together with the properties
established about them.

Conventions of the embedding.

* A Go `string` is a Lean `String`, read as its sequence of Unicode scalar
  values (so the Go strings covered are the UTF-8 ones).  All string
  functions are written over `String.data` so that they evaluate.
* A Go `map[string]T` is a `GoMap T`: the list of its entries, one entry per
  key.  Go leaves the iteration order of a map unspecified; two maps are the
  same map when `GoMap.get` agrees on every key.
* A Go `interface{}` value stored in a `bson.M` is a `BsonValue`, which keeps
  the dynamic type of the value, because the type switch of
  `convertFromBSON` selects on it.
-/

namespace Proxy

/-! ## Go maps -/

/-- A Go map with string keys, as the list of its entries. -/
abbrev GoMap (α : Type) := List (String × α)

namespace GoMap

variable {α : Type}

/-- The lookup `m[k]` in its comma-ok form. -/
def get : GoMap α → String → Option α
  | [], _ => none
  | (k, v) :: rest, key => if k = key then some v else get rest key

/-- The assignment `m[k] = v`. -/
def set : GoMap α → String → α → GoMap α
  | [], key, val => [(key, val)]
  | (k, v) :: rest, key, val =>
    if k = key then (k, val) :: rest else (k, v) :: set rest key val

/-- The builtin `delete(m, k)`. -/
def del (m : GoMap α) (key : String) : GoMap α :=
  m.filter (fun e => !decide (e.1 = key))

/-- The keys of the map. -/
def keys (m : GoMap α) : List String := m.map Prod.fst

end GoMap

/-! ## BSON documents (`bson.M`) -/

/-- An element of a Go `[]interface{}`: a value of dynamic type `string`, or
a value of any other dynamic type. -/
inductive BsonElem where
  | str (s : String)
  | other
  deriving DecidableEq, Repr

/-- A Go `interface{}` value held in a `bson.M`, with its dynamic type:
`string`, `[]string`, `[]interface{}`, or anything else (numbers, nested
documents, the driver's own array type, ...). -/
inductive BsonValue where
  | str (s : String)
  | strSlice (xs : List String)
  | ifaceSlice (xs : List BsonElem)
  | other
  deriving DecidableEq, Repr

/-- The Go type `bson.M`, a `map[string]interface{}`. -/
abbrev BsonM := GoMap BsonValue

/-- Go `convertToBSON` (repo/bson_utils.go): a key with exactly one value is
stored as that `string`, any other key keeps its `[]string`. -/
def convertToBSON (values : GoMap (List String)) : BsonM :=
  values.map (fun e =>
    (e.1, match e.2 with
          | [v] => BsonValue.str v
          | vals => BsonValue.strSlice vals))

/-- Go `convertToStringSlice` (repo/bson_utils.go): the elements of dynamic
type `string`, in order; other elements are skipped. -/
def convertToStringSlice (arr : List BsonElem) : List String :=
  arr.filterMap (fun elem =>
    match elem with
    | BsonElem.str s => some s
    | BsonElem.other => none)

/-- Go `convertFromBSON` (repo/bson_utils.go): the type switch has a case for
`string` and a case for `[]interface{}`; a value of any other dynamic type
sets nothing in the result. -/
def convertFromBSON (data : BsonM) : GoMap (List String) :=
  data.filterMap (fun e =>
    match e.2 with
    | BsonValue.str v => some (e.1, [v])
    | BsonValue.ifaceSlice v => some (e.1, convertToStringSlice v)
    | BsonValue.strSlice _ => none
    | BsonValue.other => none)


/-! ## Strings and the URL library

Models of the Go standard-library functions the repository calls
(`strings`, `net/url`), written over character lists. -/

/-- An ASCII letter, by its number. -/
def isLetter (n : Nat) : Bool :=
  (decide (97 ≤ n) && decide (n ≤ 122)) || (decide (65 ≤ n) && decide (n ≤ 90))

/-- An ASCII digit, by its number. -/
def isDigit (n : Nat) : Bool :=
  decide (48 ≤ n) && decide (n ≤ 57)

/-- Go `strings.ReplaceAll(s, old, new)` for one-character `old` and `new`. -/
def replaceAll (s : String) (old new : Char) : String :=
  ⟨s.data.map (fun c => if c = old then new else c)⟩

/-- The pieces of a character list between occurrences of `sep`. -/
def splitChars (sep : Char) : List Char → List (List Char)
  | [] => [[]]
  | c :: cs =>
    match splitChars sep cs with
    | [] => [[c]]
    | seg :: segs => if c = sep then [] :: seg :: segs else (c :: seg) :: segs

/-- Go `strings.Cut(s, sep)` for a one-character separator, without the
found flag: the text before the first `sep` and the text after it. -/
def cutChars (sep : Char) : List Char → List Char × List Char
  | [] => ([], [])
  | c :: cs =>
    if c = sep then ([], cs) else ((c :: (cutChars sep cs).1), (cutChars sep cs).2)

/-- The UTF-8 octets of a scalar value. -/
def utf8Bytes (c : Char) : List Nat :=
  let n := c.toNat
  if n < 0x80 then [n]
  else if n < 0x800 then [0xC0 + n / 64, 0x80 + n % 64]
  else if n < 0x10000 then [0xE0 + n / 4096, 0x80 + (n / 64) % 64, 0x80 + n % 64]
  else [0xF0 + n / 262144, 0x80 + (n / 4096) % 64, 0x80 + (n / 64) % 64, 0x80 + n % 64]

/-- Whether an octet is a UTF-8 continuation octet. -/
def isCont (b : Nat) : Bool := decide (0x80 ≤ b) && decide (b < 0xC0)

/-- The first rune of a non-empty octet sequence as Go decodes it, and the
number of octets it takes: a well-formed UTF-8 sequence gives its scalar
value, and an octet that starts no well-formed sequence gives U+FFFD and
takes one octet. -/
def decodeRune (b0 : Nat) (rest : List Nat) : Char × Nat :=
  if b0 < 0x80 then (Char.ofNat b0, 1)
  else if 0xC2 ≤ b0 ∧ b0 < 0xE0 then
    match rest with
    | b1 :: _ =>
      if isCont b1 then (Char.ofNat ((b0 - 0xC0) * 64 + (b1 - 0x80)), 2)
      else (Char.ofNat 0xFFFD, 1)
    | [] => (Char.ofNat 0xFFFD, 1)
  else if 0xE0 ≤ b0 ∧ b0 < 0xF0 then
    match rest with
    | b1 :: b2 :: _ =>
      let n := (b0 - 0xE0) * 4096 + (b1 - 0x80) * 64 + (b2 - 0x80)
      let surrogate := decide (0xD800 ≤ n) && decide (n < 0xE000)
      if isCont b1 && isCont b2 && decide (0x800 ≤ n) && !surrogate then (Char.ofNat n, 3)
      else (Char.ofNat 0xFFFD, 1)
    | _ => (Char.ofNat 0xFFFD, 1)
  else if 0xF0 ≤ b0 ∧ b0 < 0xF5 then
    match rest with
    | b1 :: b2 :: b3 :: _ =>
      let n := (b0 - 0xF0) * 262144 + (b1 - 0x80) * 4096 + (b2 - 0x80) * 64 + (b3 - 0x80)
      let inRange := decide (0x10000 ≤ n) && decide (n < 0x110000)
      if isCont b1 && isCont b2 && isCont b3 && inRange then (Char.ofNat n, 4)
      else (Char.ofNat 0xFFFD, 1)
    | _ => (Char.ofNat 0xFFFD, 1)
  else (Char.ofNat 0xFFFD, 1)

/-- Decoding of an octet sequence rune by rune; `fuel` bounds the number of
runes. -/
def utf8DecodeFuel : Nat → List Nat → List Char
  | 0, _ => []
  | _, [] => []
  | fuel + 1, b0 :: rest =>
    (decodeRune b0 rest).1 :: utf8DecodeFuel fuel (rest.drop ((decodeRune b0 rest).2 - 1))

/-- The text of an octet sequence.  A Go string that is not UTF-8 has no
exact counterpart in the embedding; it is kept, with U+FFFD in the place of
each octet that starts no well-formed sequence. -/
def utf8Decode (bs : List Nat) : List Char :=
  utf8DecodeFuel bs.length bs

/-- The value of a hexadecimal digit (`ishex` and `unhex` of net/url). -/
def hexVal (c : Char) : Option Nat :=
  let n := c.toNat
  if 48 ≤ n ∧ n ≤ 57 then some (n - 48)
  else if 97 ≤ n ∧ n ≤ 102 then some (n - 87)
  else if 65 ≤ n ∧ n ≤ 70 then some (n - 55)
  else none

/-- The upper-case hexadecimal digit of a value below 16. -/
def upperhex (n : Nat) : Char :=
  if n < 10 then Char.ofNat (48 + n) else Char.ofNat (55 + n)

/-- The octets that `url.QueryUnescape` produces: `%XX` is the octet `XX`,
`+` is a space, anything else stands for itself; `none` is the EscapeError
of a `%` not followed by two hexadecimal digits. -/
def unescapeBytes : List Char → Option (List Nat)
  | [] => some []
  | c :: rest =>
    if c = '%' then
      match rest with
      | h1 :: h2 :: rest2 =>
        match hexVal h1, hexVal h2 with
        | some a, some b => (unescapeBytes rest2).map (fun bs => (16 * a + b) :: bs)
        | _, _ => none
      | _ => none
    else if c = '+' then (unescapeBytes rest).map (fun bs => 32 :: bs)
    else (unescapeBytes rest).map (fun bs => utf8Bytes c ++ bs)

/-- Go `url.QueryUnescape`; `none` is an error. -/
def QueryUnescape (s : List Char) : Option String :=
  match unescapeBytes s with
  | none => none
  | some bs => some ⟨utf8Decode bs⟩

/-- Go `shouldEscape(c, encodeQueryComponent)` of net/url: only the
unreserved octets stay as they are. -/
def shouldEscape (b : Nat) : Bool :=
  !(isLetter b || isDigit b
    || decide (b = 45) || decide (b = 95) || decide (b = 46) || decide (b = 126))

/-- The escape of one octet in a query component. -/
def escapeByte (b : Nat) : List Char :=
  if b = 32 then ['+']
  else if shouldEscape b then ['%', upperhex (b / 16), upperhex (b % 16)]
  else [Char.ofNat b]

/-- Go `url.QueryEscape`. -/
def QueryEscape (s : String) : String :=
  ⟨(s.data.flatMap utf8Bytes).flatMap escapeByte⟩

/-- The Go type `url.Values` (and `http.Header`): names with their ordered
values. -/
abbrev Values := GoMap (List String)

/-- One round of the loop of `url.ParseQuery` on the piece `seg` between two
`&`: a piece holding `;`, an empty piece and a piece with a bad escape are
skipped; otherwise the value is appended to the values of its key. -/
def parseQueryStep (m : Values) (seg : List Char) : Values :=
  if seg.contains ';' then m
  else if seg = [] then m
  else
    match QueryUnescape (cutChars '=' seg).1, QueryUnescape (cutChars '=' seg).2 with
    | some key, some value => m.set key ((m.get key).getD [] ++ [value])
    | _, _ => m

/-- Go `url.ParseQuery` as used by `URL.Query`, which drops the error. -/
def ParseQuery (query : String) : Values :=
  (splitChars '&' query.data).foldl parseQueryStep []

/-- Lexicographic order of two strings by scalar value, which is the order
of Go strings holding UTF-8. -/
def strLe : List Char → List Char → Bool
  | [], _ => true
  | _ :: _, [] => false
  | a :: as, b :: bs =>
    if a.toNat < b.toNat then true
    else if b.toNat < a.toNat then false
    else strLe as bs

/-- Insertion into a sorted list of keys. -/
def insertKey (k : String) : List String → List String
  | [] => [k]
  | x :: xs => if strLe k.data x.data then k :: x :: xs else x :: insertKey k xs

/-- Go `slices.Sort` on strings. -/
def sortKeys (ks : List String) : List String :=
  ks.foldr insertKey []

/-- The `key=value` pairs that `Values.Encode` writes, in order: keys sorted,
the values of a key in their order. -/
def encodePairs (v : Values) : List String :=
  (sortKeys v.keys).flatMap (fun k =>
    ((v.get k).getD []).map (fun val => QueryEscape k ++ "=" ++ QueryEscape val))

/-- Go `url.Values.Encode`. -/
def Encode (v : Values) : String :=
  "&".intercalate (encodePairs v)

/-- Go `unicode.IsSpace`. -/
def isSpace (c : Char) : Bool :=
  let n := c.toNat
  (decide (9 ≤ n) && decide (n ≤ 13)) || decide (n = 32)
    || decide (n = 0x85) || decide (n = 0xA0) || decide (n = 0x1680)
    || (decide (0x2000 ≤ n) && decide (n ≤ 0x200A))
    || decide (n = 0x2028) || decide (n = 0x2029) || decide (n = 0x202F)
    || decide (n = 0x205F) || decide (n = 0x3000)

/-- Leading white space removed. -/
def trimLeft (s : List Char) : List Char := s.dropWhile isSpace

/-- Go `strings.TrimSpace`. -/
def TrimSpace (s : String) : String :=
  ⟨(trimLeft (trimLeft s.data).reverse).reverse⟩

/-- Go `strings.Index(s, c)` for a one-character needle that is ASCII: the
position of its first occurrence, or -1.  The position counts scalar values;
it cuts the string where Go's octet position does. -/
def Index (s : String) (c : Char) : Int :=
  if c ∈ s.data then (s.data.indexOf c : Int) else -1

/-- The Go slice expression `s[i:]`; `none` is the run-time panic
"slice bounds out of range". -/
def sliceFrom (s : String) (i : Int) : Option String :=
  if 0 ≤ i ∧ i ≤ (s.data.length : Int) then some ⟨s.data.drop i.toNat⟩ else none

/-- The length of a string in octets, Go `len(s)`. -/
def byteLength (s : String) : Nat :=
  (s.data.flatMap utf8Bytes).length

/-- The decimal digits of a number, most significant first; `fuel` bounds
the number of digits. -/
def decimalDigits : Nat → Nat → List Char
  | 0, _ => []
  | fuel + 1, n =>
    if n < 10 then [Char.ofNat (48 + n)]
    else decimalDigits fuel (n / 10) ++ [Char.ofNat (48 + n % 10)]

/-- The decimal text of an integer: a `-` for a negative one, then the
digits (Go `strconv.Itoa` and the verb `%d`). -/
def decimalText (n : Int) : String :=
  if n < 0 then ⟨'-' :: decimalDigits (n.natAbs + 1) n.natAbs⟩
  else ⟨decimalDigits (n.natAbs + 1) n.natAbs⟩

/-- ASCII lower-casing, as `strings.ToLower` does on ASCII text (the scheme
of a parsed URL is ASCII). -/
def toLower (s : String) : String :=
  ⟨s.data.map (fun c =>
    if 65 ≤ c.toNat ∧ c.toNat ≤ 90 then Char.ofNat (c.toNat + 32) else c)⟩

/-! ## HTTP messages -/

deriving instance DecidableEq for Except

/-- What one read of a body stream delivers: some bytes, or a read error.
The end of the list is the end of the stream (EOF). -/
inductive ReadEvent where
  | data (bytes : String)
  | fail (err : String)
  deriving DecidableEq, Repr

/-- An `io.ReadCloser` body, as the reads it still has to deliver. -/
abbrev Body := List ReadEvent

/-- Go `io.ReadAll`: reads until EOF or the first error; returns the bytes
read, the error if any, and the reader as it is left. -/
def ReadAll : Body → String × Option String × Body
  | [] => ("", none, [])
  | ReadEvent.data bs :: rest =>
    (bs ++ (ReadAll rest).1, (ReadAll rest).2.1, (ReadAll rest).2.2)
  | ReadEvent.fail err :: rest => ("", some err, rest)

/-- Go `io.NopCloser(strings.NewReader(s))` and
`io.NopCloser(bytes.NewReader(b))`: a fresh reader over `s`. -/
def newReader (s : String) : Body := [ReadEvent.data s]

/-- The fields of `url.URL` the repository touches. -/
structure URL where
  Scheme : String
  Host : String
  Path : String
  RawQuery : String
  deriving DecidableEq, Repr

/-- The fields of `http.Request` the repository touches. -/
structure Request where
  Method : String
  URL : URL
  Host : String
  Header : Values
  Body : Body
  deriving DecidableEq, Repr

/-- The fields of `http.Response` the repository and `httputil.DumpResponse`
touch.  `ContentLength` is -1 when the length is unknown (as it is for a
chunked response); `RequestMethod` is the method of the request answered
(`resp.Request.Method`). -/
structure Response where
  Status : String
  StatusCode : Int
  Header : Values
  Body : Body
  ContentLength : Int
  RequestMethod : String
  deriving DecidableEq, Repr

/-- The octets of a header field name (`validHeaderFieldByte`, the token
characters of RFC 7230). -/
def isToken (c : Char) : Bool :=
  isLetter c.toNat || isDigit c.toNat
    || [33, 35, 36, 37, 38, 39, 42, 43, 45, 46, 94, 95, 96, 124, 126].contains c.toNat

/-- The letter-case pass of `textproto.CanonicalMIMEHeaderKey`: a letter is
upper-cased at the start and after `-`, lower-cased elsewhere. -/
def canonChars : Bool → List Char → List Char
  | _, [] => []
  | upper, c :: cs =>
    let n := c.toNat
    let c1 := if upper ∧ 97 ≤ n ∧ n ≤ 122 then Char.ofNat (n - 32)
              else if ¬ upper ∧ 65 ≤ n ∧ n ≤ 90 then Char.ofNat (n + 32)
              else c
    c1 :: canonChars (decide (c1 = '-')) cs

/-- Go `textproto.CanonicalMIMEHeaderKey`: a key holding an octet that is not
a token character is returned unchanged. -/
def CanonicalMIMEHeaderKey (key : String) : String :=
  if key.data.all isToken then ⟨canonChars true key.data⟩ else key

namespace Header

/-- Go `Header.Get`: the first value under the canonical key, or "". -/
def Get (h : Values) (key : String) : String :=
  match GoMap.get h (CanonicalMIMEHeaderKey key) with
  | some (v :: _) => v
  | _ => ""

/-- Go `Header.Set`. -/
def Set (h : Values) (key value : String) : Values :=
  GoMap.set h (CanonicalMIMEHeaderKey key) [value]

/-- Go `Header.Del`. -/
def Del (h : Values) (key : String) : Values :=
  GoMap.del h (CanonicalMIMEHeaderKey key)

end Header

/-- Go `sanitizeCookieName` of net/http: line breaks become `-`. -/
def sanitizeCookieName (n : String) : String :=
  ⟨n.data.map (fun c => if c = '\n' ∨ c = '\r' then '-' else c)⟩

/-- Go `validCookieValueByte` of net/http. -/
def validCookieValueByte (c : Char) : Bool :=
  decide (0x20 ≤ c.toNat) && decide (c.toNat < 0x7f)
    && !decide (c = '"') && !decide (c = ';') && !decide (c = '\\')

/-- Go `sanitizeCookieValue` of net/http for an unquoted cookie: invalid
octets are dropped, a value with a space or a comma is quoted. -/
def sanitizeCookieValue (v : String) : String :=
  let kept := v.data.filter validCookieValueByte
  if kept = [] then ""
  else if kept.contains ' ' || kept.contains ',' then ⟨'"' :: kept ++ ['"']⟩
  else ⟨kept⟩

/-- Go `Request.AddCookie`. -/
def AddCookie (req : Request) (name value : String) : Request :=
  let s := sanitizeCookieName name ++ "=" ++ sanitizeCookieValue value
  let c := Header.Get req.Header "Cookie"
  if c ≠ "" then { req with Header := Header.Set req.Header "Cookie" (c ++ "; " ++ s) }
  else { req with Header := Header.Set req.Header "Cookie" s }

/-! ## Package repo: records and the wire codec -/

/-- Go struct `RequestData` (repo/models.go).  An absent `post_params`
(omitted when empty) is the empty document. -/
structure RequestData where
  ID : String
  Method : String
  Scheme : String
  Host : String
  Path : String
  GetParams : BsonM
  Headers : BsonM
  Cookies : GoMap String
  PostParams : BsonM
  Body : String
  Timestamp : Nat
  deriving DecidableEq, Repr

/-- Go `addCookies` (repo/utils.go): one `AddCookie` per entry of the map. -/
def addCookies (req : Request) (cookies : GoMap String) : Request :=
  cookies.foldl (fun r c => AddCookie r c.1 c.2) req

/-- Go `encodeQueryParams` (repo/utils.go). -/
def encodeQueryParams (values : Values) : String :=
  Encode values

/-- Go `createRequestBody` (repo/utils.go): the branch is taken on the
`Content-Type` header of the rebuilt request. -/
def createRequestBody (req : Request) (data : RequestData) : Body :=
  if Header.Get req.Header "Content-Type" = "application/x-www-form-urlencoded" then
    newReader (Encode (convertFromBSON data.PostParams))
  else
    newReader data.Body

/-- Go `createHTTPRequest` (repo/utils.go).  `newRequest` stands for
`http.NewRequest(method, url, nil)`. -/
def createHTTPRequest (newRequest : String → String → Except String Request)
    (data : RequestData) : Except String Request :=
  match newRequest data.Method (data.Scheme ++ "://" ++ data.Host ++ data.Path) with
  | Except.error err => Except.error err
  | Except.ok req0 =>
    let req1 := { req0 with Host := data.Host }
    let req2 := { req1 with Header := convertFromBSON data.Headers }
    let req3 := addCookies req2 data.Cookies
    let req4 := { req3 with
      URL := { req3.URL with RawQuery := encodeQueryParams (convertFromBSON data.GetParams) } }
    Except.ok { req4 with Body := createRequestBody req4 data }

/-- Go `parseHTTPHeaders` (repo/utils.go). -/
def parseHTTPHeaders (headers : Values) : BsonM :=
  GoMap.del (convertToBSON headers) "Cookie"

/-- Go `parseURLQuery` (repo/utils.go): rewrites `RawQuery` in place and
converts the parsed query.  `query` stands for `URL.Query`, a function of
`RawQuery`.  Returns the URL as it is left and the document. -/
def parseURLQuery (query : String → Values) (input : URL) : URL × BsonM :=
  let input1 := { input with RawQuery := replaceAll input.RawQuery ';' '&' }
  (input1, convertToBSON (query input1.RawQuery))

/-! ## A model of `http.NewRequest` -/

/-- Go `validMethod` of net/http. -/
def validMethod (method : String) : Bool :=
  !method.data.isEmpty && method.data.all isToken

/-- Go `getScheme` of net/url on the text before and after the first octet
that is not a letter, digit, `+`, `-` or `.`: `some (scheme, rest)`;
`none` is the error "missing protocol scheme". -/
def getScheme (raw : List Char) : Option (List Char × List Char) :=
  let isMore := fun (c : Char) => isDigit c.toNat || c = '+' || c = '-' || c = '.'
  match raw with
  | [] => some ([], raw)
  | c0 :: _ =>
    if c0 = ':' then none
    else if !isLetter c0.toNat then some ([], raw)
    else
      let head := raw.takeWhile (fun c => isLetter c.toNat || isMore c)
      match raw.dropWhile (fun c => isLetter c.toNat || isMore c) with
      | c :: rest => if c = ':' then some (head, rest) else some ([], raw)
      | [] => some ([], raw)

/-- A host name with an optional port, of letters, digits, `.` and `-`. -/
def plainAuthority (a : List Char) : Bool :=
  let isHostChar := fun (c : Char) =>
    isLetter c.toNat || isDigit c.toNat || c = '.' || c = '-'
  let host := a.takeWhile (fun c => !decide (c = ':'))
  let port := (a.dropWhile (fun c => !decide (c = ':'))).drop 1
  !host.isEmpty && host.all isHostChar && port.all (fun c => isDigit c.toNat)

/-- A path of printable ASCII without `?`, `#` and `%`. -/
def plainPath (p : List Char) : Bool :=
  p.all (fun c => decide (0x20 < c.toNat) && decide (c.toNat < 0x7f)
    && !decide (c = '?') && !decide (c = '#') && !decide (c = '%'))

/-- A model of `http.NewRequest(method, url, nil)`, exact on the URL texts
`scheme://authority/path` with a plain authority and a plain path, which
net/url splits at these places; on any other URL text the model reports an
error.  The request has an empty header and no body. -/
def NewRequest (method url : String) : Except String Request :=
  let method1 := if method = "" then "GET" else method
  if !validMethod method1 then Except.error "net/http: invalid method"
  else
    match getScheme url.data with
    | none => Except.error "missing protocol scheme"
    | some (scheme, rest) =>
      match rest with
      | '/' :: '/' :: tail =>
        let authority := tail.takeWhile (fun c => !decide (c = '/'))
        let path := tail.dropWhile (fun c => !decide (c = '/'))
        if !scheme.isEmpty && plainAuthority authority && plainPath path then
          Except.ok
            { Method := method1
              URL :=
                { Scheme := toLower ⟨scheme⟩, Host := ⟨authority⟩, Path := ⟨path⟩
                  RawQuery := "" }
              Host := ⟨authority⟩
              Header := []
              Body := [] }
        else Except.error "unsupported URL text"
      | _ => Except.error "unsupported URL text"

/-! ## Package http_utils -/

/-- Go `validOptionalPort` of net/url: empty, or `:` followed by digits. -/
def validOptionalPort (port : List Char) : Bool :=
  match port with
  | [] => true
  | c :: rest =>
    if c ≠ ':' then false
    else rest.all (fun b => isDigit b.toNat)

/-- Go `splitHostPort` of net/url: the text is cut at its last `:` when what
follows is an optional port; square brackets around the host are removed. -/
def splitHostPort (hostPort : String) : String × String :=
  let s := hostPort.data
  let afterColon := (s.reverse.takeWhile (fun c => !decide (c = ':'))).reverse
  let beforeColon := ((s.reverse.dropWhile (fun c => !decide (c = ':'))).drop 1).reverse
  let cut := s.contains ':' && validOptionalPort (':' :: afterColon)
  let host := if cut then beforeColon else s
  let port := if cut then afterColon else []
  let host1 :=
    if host.head? = some '[' ∧ host.getLast? = some ']' then (host.drop 1).dropLast else host
  (⟨host1⟩, ⟨port⟩)

/-- Go `URL.Hostname`. -/
def Hostname (u : URL) : String := (splitHostPort u.Host).1

/-- Go `URL.Port`. -/
def Port (u : URL) : String := (splitHostPort u.Host).2

/-- Go constant `defaultHTTPPort` (pkg/http_utils/utils.go). -/
def defaultHTTPPort : String := "80"

/-- Go constant `defaultHTTPSPort` (pkg/http_utils/utils.go). -/
def defaultHTTPSPort : String := "443"

/-- Go `GetPort` (pkg/http_utils/utils.go). -/
def GetPort (u : URL) : String :=
  if Port u ≠ "" then Port u
  else if toLower u.Scheme = "https" then defaultHTTPSPort
  else defaultHTTPPort

/-- What `httputil.DumpResponse(resp, true)` renders: the status line, the
headers and the whole body. -/
structure Dump where
  Status : String
  StatusCode : Int
  Header : Values
  Body : String
  deriving DecidableEq, Repr

/-- Go `httputil.DumpResponse(resp, true)`: the body is read to its end
first, and a read error is returned.  `Response.Write` then leaves the body
out for a response to `HEAD`, takes a content length of 0 with a non-empty
body as unknown, and fails when a known content length differs from the
length of the body. -/
def DumpResponse (resp : Response) : Except String Dump :=
  match (ReadAll resp.Body).2.1 with
  | some err => Except.error err
  | none =>
    let body := (ReadAll resp.Body).1
    if resp.RequestMethod = "HEAD" then
      Except.ok
        { Status := resp.Status, StatusCode := resp.StatusCode, Header := resp.Header
          Body := "" }
    else
      let contentLength :=
        if resp.ContentLength = 0 ∧ body ≠ "" then (-1 : Int) else resp.ContentLength
      if contentLength ≠ -1 ∧ contentLength ≠ (byteLength body : Int) then
        Except.error ("http: ContentLength=" ++ decimalText contentLength
          ++ " with Body length " ++ decimalText (byteLength body))
      else
        Except.ok
          { Status := resp.Status, StatusCode := resp.StatusCode, Header := resp.Header
            Body := body }

/-- Go `WriteResponse` (pkg/http_utils/utils.go).  `setWriteDeadline` and
`connWrite` are the outcomes of the two calls on the connection (`none` is
success).  Returns the error (`none` is nil) and the bytes handed to
`conn.Write`, if that call is reached. -/
def WriteResponse (setWriteDeadline : Option String) (connWrite : Dump → Option String)
    (resp : Response) : Option String × Option Dump :=
  match setWriteDeadline with
  | some err => (some ("set write deadline failed: " ++ err), none)
  | none =>
    match DumpResponse resp with
    | Except.error err => (some ("dump response failed: " ++ err), none)
    | Except.ok bytes =>
      match connWrite bytes with
      | some err => (some ("write response failed: " ++ err), some bytes)
      | none => (none, some bytes)

/-- What `httputil.DumpRequestOut(req, true)` renders: the request as the
transport writes it, with its whole body. -/
structure RequestDump where
  Method : String
  URL : URL
  Host : String
  Header : Values
  Body : String
  deriving DecidableEq, Repr

/-- Go `httpguts.ValidHeaderFieldValue`: no control octet other than the
tab. -/
def validHeaderFieldValue (v : String) : Bool :=
  v.data.all (fun c => !((decide (c.toNat < 0x20) || decide (c.toNat = 0x7f))
    && !decide (c.toNat = 9)))

/-- The header check of `Transport.RoundTrip`: every name is a non-empty
token and every value is a valid field value. -/
def validHeaders (h : Values) : Bool :=
  h.all (fun e => !e.1.data.isEmpty && e.1.data.all isToken && e.2.all validHeaderFieldValue)

/-- Go `httputil.DumpRequestOut(req, true)`: the body is read to its end,
then the request is handed to the `RoundTrip` of an `http.Transport`, which
rejects, in this order, an invalid header (the text of the error then names
the field), a scheme other than `http` and `https`, an invalid method, and a
request whose URL has no host. -/
def DumpRequestOut (req : Request) : Except String RequestDump :=
  match (ReadAll req.Body).2.1 with
  | some err => Except.error err
  | none =>
    if !validHeaders req.Header then Except.error "net/http: invalid header"
    else if req.URL.Scheme ≠ "http" ∧ req.URL.Scheme ≠ "https" then
      Except.error ("unsupported protocol scheme \"" ++ req.URL.Scheme ++ "\"")
    else if req.Method ≠ "" ∧ !validMethod req.Method then
      Except.error ("net/http: invalid method \"" ++ req.Method ++ "\"")
    else if req.URL.Host = "" then Except.error "http: no Host in request URL"
    else
      Except.ok
        { Method := if req.Method = "" then "GET" else req.Method
          URL := req.URL
          Host := if req.Host = "" then req.URL.Host else req.Host
          Header := req.Header
          Body := (ReadAll req.Body).1 }

/-- The outcomes of the calls `SendRequest` makes on the connection to the
origin (`none` is success); `readResponse` is the outcome of
`http.ReadResponse` on it. -/
structure OriginConn where
  setWriteDeadline : Option String
  write : RequestDump → Option String
  setReadDeadline : Option String
  readResponse : Except String Response

/-- Go `SendRequest` (pkg/http_utils/utils.go).  Returns the response or the
error, and the bytes handed to `conn.Write`, if that call is reached. -/
def SendRequest (conn : OriginConn) (req : Request) :
    Except String Response × Option RequestDump :=
  match conn.setWriteDeadline with
  | some err => (Except.error ("set write deadline failed: " ++ err), none)
  | none =>
    match DumpRequestOut req with
    | Except.error err => (Except.error ("dump request failed: " ++ err), none)
    | Except.ok bytes =>
      match conn.write bytes with
      | some err => (Except.error ("write request failed: " ++ err), some bytes)
      | none =>
        match conn.setReadDeadline with
        | some err => (Except.error ("set read deadline failed: " ++ err), some bytes)
        | none =>
          match conn.readResponse with
          | Except.error err => (Except.error ("read response failed: " ++ err), some bytes)
          | Except.ok resp => (Except.ok resp, some bytes)

/-! ## Package repo: the response store -/

/-- A call that returns a value or panics. -/
inductive Outcome (α : Type) where
  | returned (a : α)
  | panicked (msg : String)
  deriving DecidableEq, Repr

/-- The type `primitive.ObjectID`: twelve octets. -/
abbrev ObjectID := List Nat

/-- Go `hex.DecodeString`; `none` is an error. -/
def decodeHex : List Char → Option (List Nat)
  | [] => some []
  | [_] => none
  | a :: b :: rest =>
    match hexVal a, hexVal b with
    | some x, some y => (decodeHex rest).map (fun bs => (16 * x + y) :: bs)
    | _, _ => none

/-- Go `primitive.ObjectIDFromHex`: the text must be 24 hexadecimal digits;
`none` is `ErrInvalidHex`. -/
def ObjectIDFromHex (s : String) : Option ObjectID :=
  if s.data.length ≠ 24 then none else decodeHex s.data

/-- Go `ObjectID.Hex`: lower-case hexadecimal. -/
def Hex (id : ObjectID) : String :=
  let digit := fun (n : Nat) => if n < 10 then Char.ofNat (48 + n) else Char.ofNat (87 + n)
  ⟨id.flatMap (fun b => [digit (b / 16), digit (b % 16)])⟩

/-- The document `Save` inserts into the collection `responses`. -/
structure ResponseDoc where
  code : Int
  message : String
  headers : BsonM
  request_id : ObjectID
  body : String
  timestamp : Nat
  deriving DecidableEq, Repr

/-- The collection `responses`: the inserted documents with their `_id`. -/
abbrev Collection := List (ObjectID × ResponseDoc)

/-- The state `MongoResponseSaver.Save` leaves behind. -/
structure SaveState where
  outcome : Outcome (Except String String)
  resp : Response
  original : Body
  coll : Collection
  deriving DecidableEq, Repr

/-- The reason-phrase expression of `Save`,
`strings.TrimSpace(resp.Status[strings.Index(resp.Status, " "):])`;
`none` is the panic of the slice expression. -/
def statusMessage (status : String) : Option String :=
  (sliceFrom status (Index status ' ')).map TrimSpace

/-- Go `MongoResponseSaver.Save` (repo/save_resp.go).  `insertOne` is the
outcome of `collection.InsertOne` (the new `_id`, or an error) and `now` the
clock.  `resp` of the result is the live response object afterwards and
`original` the reader that was its body on entry, as it is left. -/
def MongoResponseSaver.Save (coll : Collection) (insertOne : Except String ObjectID) (now : Nat)
    (requestID : String) (resp : Response) : SaveState :=
  match ObjectIDFromHex requestID with
  | none =>
    { outcome := Outcome.returned (Except.error "the provided hex string is not a valid ObjectID")
      resp := resp, original := resp.Body, coll := coll }
  | some requestObjectID =>
    let body := (ReadAll resp.Body).1
    let left := (ReadAll resp.Body).2.2
    match (ReadAll resp.Body).2.1 with
    | some err =>
      { outcome := Outcome.returned (Except.error err)
        resp := { resp with Body := left }, original := left, coll := coll }
    | none =>
      let resp1 := { resp with Body := newReader body }
      match statusMessage resp1.Status with
      | none =>
        { outcome := Outcome.panicked "runtime error: slice bounds out of range [-1:]"
          resp := resp1, original := left, coll := coll }
      | some message =>
        let doc : ResponseDoc :=
          { code := resp1.StatusCode, message := message, headers := convertToBSON resp1.Header
            request_id := requestObjectID, body := body, timestamp := now }
        match insertOne with
        | Except.error err =>
          { outcome := Outcome.returned (Except.error err)
            resp := resp1, original := left, coll := coll }
        | Except.ok id =>
          { outcome := Outcome.returned (Except.ok (Hex id))
            resp := resp1, original := left, coll := coll ++ [(id, doc)] }

/-! ## Package proxy: the engine -/

/-- Go `prepareRequest` (pkg/proxy/handler.go). -/
def prepareRequest (r : Request) : Request :=
  let r1 := { r with URL := { r.URL with Host := "" } }
  let r2 := { r1 with Header := Header.Del r1.Header "Proxy-Connection" }
  { r2 with Header := Header.Del r2.Header "Accept-Encoding" }

/-- The calls `handleRequest` makes on its collaborators, in order. -/
inductive Event where
  | tlsUpgrade (host : String)
  | readRequest
  | tlsConnect (host port : String)
  | tcpConnect (host port : String)
  | saveRequest (req : Request)
  | sendRequest (req : Request)
  | originWrite (bytes : RequestDump)
  | saveResponse (requestId : String) (resp : Response)
  | connWrite (bytes : Dump)
  deriving DecidableEq, Repr

/-- The collaborators of `handleRequest`, each as the outcome of its calls
(`none` is success for a call that returns only an error).  `σ` is the state
of the response store. -/
structure Env (σ : Type) where
  tlsUpgrade : String → Option String
  readRequest : Except String Request
  TLSConnect : String → String → Option String
  TCPConnect : String → String → Option String
  requestSave : Request → Except String String
  origin : OriginConn
  responseSave : σ → String → Response → Outcome (Except String String) × Response × σ
  setWriteDeadline : Option String
  connWrite : Dump → Option String

/-- A run of `handleRequest`: what it returns (`none` is nil), the calls it
made, and the response store afterwards. -/
structure Run (σ : Type) where
  result : Outcome (Option String)
  trace : List Event
  store : σ

/-- The part of Go `handleRequest` (pkg/proxy/handler.go) up to the open
connection to the origin: the request to forward and the calls made, or the
error returned early. -/
def connectOrigin {σ : Type} (env : Env σ) (toProxy : Request) :
    Except (String × List Event) (Request × List Event) :=
  let host := Hostname toProxy.URL
  let port := GetPort toProxy.URL
  if toProxy.Method = "CONNECT" then
    match env.tlsUpgrade host with
    | some err => Except.error (err, [Event.tlsUpgrade host])
    | none =>
      match env.readRequest with
      | Except.error err => Except.error (err, [Event.tlsUpgrade host, Event.readRequest])
      | Except.ok inner =>
        let inner1 := { inner with URL := { inner.URL with Scheme := "https" } }
        match env.TLSConnect host port with
        | some err =>
          Except.error (err, [Event.tlsUpgrade host, Event.readRequest, Event.tlsConnect host port])
        | none =>
          Except.ok (inner1, [Event.tlsUpgrade host, Event.readRequest, Event.tlsConnect host port])
  else
    let toProxy1 := { toProxy with URL := { toProxy.URL with Scheme := "http" } }
    match env.TCPConnect host port with
    | some err => Except.error (err, [Event.tcpConnect host port])
    | none => Except.ok (toProxy1, [Event.tcpConnect host port])

/-- The last two statements of Go `handleRequest` (pkg/proxy/handler.go):
`h.responseSaver.Save(requestId, resp)`, whose results are dropped, then
`return utils.WriteResponse(resp, clientConn)`. -/
def saveAndWriteResponse {σ : Type}
    (responseSave : σ → String → Response → Outcome (Except String String) × Response × σ)
    (setWriteDeadline : Option String) (connWrite : Dump → Option String)
    (store : σ) (requestId : String) (resp : Response) : Run σ :=
  match responseSave store requestId resp with
  | (Outcome.panicked msg, _, store1) =>
    { result := Outcome.panicked msg, trace := [Event.saveResponse requestId resp]
      store := store1 }
  | (Outcome.returned _, resp1, store1) =>
    let w := WriteResponse setWriteDeadline connWrite resp1
    { result := Outcome.returned w.1
      trace := Event.saveResponse requestId resp :: (w.2.map Event.connWrite).toList
      store := store1 }

/-- Go `Handler.handleRequest` (pkg/proxy/handler.go). -/
def handleRequest {σ : Type} (env : Env σ) (store : σ) (toProxy : Request) : Run σ :=
  match connectOrigin env toProxy with
  | Except.error (err, tr) => { result := Outcome.returned (some err), trace := tr, store := store }
  | Except.ok (req0, tr) =>
    let req := prepareRequest req0
    match env.requestSave req with
    | Except.error err =>
      { result := Outcome.returned (some err)
        trace := tr ++ [Event.saveRequest req], store := store }
    | Except.ok requestId =>
      match SendRequest env.origin req with
      | (Except.error err, sent) =>
        { result := Outcome.returned (some err)
          trace := tr ++ [Event.saveRequest req, Event.sendRequest req]
            ++ (sent.map Event.originWrite).toList
          store := store }
      | (Except.ok resp, sent) =>
        let last := saveAndWriteResponse env.responseSave env.setWriteDeadline env.connWrite
          store requestId resp
        { result := last.result
          trace := tr ++ [Event.saveRequest req, Event.sendRequest req]
            ++ (sent.map Event.originWrite).toList ++ last.trace
          store := last.store }

/-- The store of `MongoResponseSaver` behind the `ResponseSaver` interface. -/
def mongoResponseSave (insertOne : Except String ObjectID) (now : Nat)
    (coll : Collection) (requestID : String) (resp : Response) :
    Outcome (Except String String) × Response × Collection :=
  let s := MongoResponseSaver.Save coll insertOne now requestID resp
  (s.outcome, s.resp, s.coll)

/-! ## Package repo: cookies and listing -/

/-- The fields of `http.Cookie` that `parseHTTPCookies` reads. -/
structure Cookie where
  Name : String
  Value : String
  deriving DecidableEq, Repr

/-- Go `parseHTTPCookies` (repo/utils.go): one assignment
`result[cookie.Name] = cookie.Value` per cookie, in the order of the list. -/
def parseHTTPCookies (cookies : List Cookie) : GoMap String :=
  cookies.foldl (fun result cookie => GoMap.set result cookie.Name cookie.Value) []

/-- The options `MongoResponseSaver.List` builds for `Find`: the limit and
the sort document. -/
structure FindOptions where
  Limit : Int
  SortBy : GoMap Int
  deriving DecidableEq, Repr

/-- Go `MongoResponseSaver.List` (repo/save_resp.go).  `find` is the store
call `collection.Find(ctx, filter, opts)`, as the records its cursor holds or
its error; `allErr` is the outcome of `cursor.All` (`none` is success). -/
def MongoResponseSaver.List
    (find : BsonM → FindOptions → Except String (List (ObjectID × ResponseDoc)))
    (allErr : Option String) (limit : Int) :
    Except String (List (ObjectID × ResponseDoc)) :=
  match find [] { Limit := limit, SortBy := [("_id", -1)] } with
  | Except.error err => Except.error err
  | Except.ok cursor =>
    match allErr with
    | some err => Except.error err
    | none => Except.ok cursor

/-! ## Package api: the inspection handlers -/

/-- The error kinds of the specification. -/
inductive ErrKind where
  | decode | dial | handshake | mint | store | timeout | notFound | upstream
  deriving DecidableEq, Repr

/-- A Go `error` met by the inspection API: its kind and its text
(`err.Error()`). -/
structure ApiError where
  kind : ErrKind
  text : String
  deriving DecidableEq, Repr

/-- An `http.ResponseWriter`: the header map, the status once it has been
written, and the body bytes written so far. -/
structure ResponseWriter where
  header : Values
  status : Option Int
  body : String
  deriving DecidableEq, Repr

namespace ResponseWriter

/-- A writer nothing has been written to. -/
def fresh : ResponseWriter := { header := [], status := none, body := "" }

/-- Go `ResponseWriter.WriteHeader`: only the first status counts. -/
def WriteHeader (w : ResponseWriter) (statusCode : Int) : ResponseWriter :=
  match w.status with
  | none => { w with status := some statusCode }
  | some _ => w

/-- Go `ResponseWriter.Write`: writes the status 200 first if none has been
written. -/
def Write (w : ResponseWriter) (bytes : String) : ResponseWriter :=
  { WriteHeader w 200 with body := (WriteHeader w 200).body ++ bytes }

end ResponseWriter

/-- Go `Values.Get` of net/url: the first value of the key, or "". -/
def valuesGet (v : Values) (key : String) : String :=
  match GoMap.get v key with
  | some (x :: _) => x
  | _ => ""

/-- Go `HTTPError` (pkg/http_utils/utils.go). -/
def HTTPError (w : ResponseWriter) (message : String) (statusCode : Int)
    (err : Option ApiError) : ResponseWriter :=
  let w1 := { w with header := Header.Set w.header "Content-Type" "text/plain" }
  let w2 := w1.WriteHeader statusCode
  let w3 := if message ≠ "" then w2.Write (message ++ ": ") else w2
  match err with
  | some e => w3.Write (e.text ++ "\n")
  | none => w3

/-- Go constant `defaultListSize` (pkg/api/handler.go). -/
def defaultListSize : Int := 5

/-- The value of a text of decimal digits; `none` for the empty text and for
a text with another character (the syntax error of `strconv.ParseUint`). -/
def digitsValue (s : List Char) : Option Nat :=
  if s.isEmpty then none
  else s.foldl (fun acc c =>
    match acc with
    | none => none
    | some n => if isDigit c.toNat then some (n * 10 + (c.toNat - 48)) else none) (some 0)

/-- Go `strconv.ParseInt(s, 10, 64)`: an optional sign and decimal digits,
the value within the range of `int64`; `none` is an error (syntax or
range). -/
def ParseInt (s : String) : Option Int :=
  match s.data with
  | [] => none
  | c :: rest =>
    let neg := decide (c = '-')
    let digits := if c = '+' ∨ c = '-' then rest else c :: rest
    match digitsValue digits with
    | none => none
    | some un =>
      if ¬ neg ∧ un ≥ 2 ^ 63 then none
      else if neg ∧ un > 2 ^ 63 then none
      else some (if neg then -(un : Int) else (un : Int))

/-- Go `parseLimitParam` (pkg/api/handler.go); `none` is the error of
`strconv.ParseInt`.  `query` stands for `URL.Query`, a function of
`RawQuery`. -/
def parseLimitParam (query : String → Values) (r : Request) : Option Int :=
  let limitStr := valuesGet (query r.URL.RawQuery) "limit"
  if limitStr = "" then some defaultListSize else ParseInt limitStr

/-- The collaborators of the inspection handlers: the two stores behind their
interfaces, the HTTP client, the JSON encoder, `httputil.DumpRequest`, the
two functions of package `xxe`, and `URL.Query` as a function of
`RawQuery`. -/
structure ApiEnv where
  query : String → Values
  requestsGet : String → Except ApiError RequestData
  requestsGetEncoded : String → Except ApiError Request
  requestsList : Int → Except ApiError (List RequestData)
  responsesList : Int → Except ApiError (List (ObjectID × ResponseDoc))
  clientDo : Request → Except ApiError Response
  encodeRequest : RequestData → Except ApiError String
  encodeRequests : List RequestData → Except ApiError String
  encodeResponses : List (ObjectID × ResponseDoc) → Except ApiError String
  dumpRequest : Request → Except ApiError String
  AddVulnerability : Request → Except ApiError (Bool × Request)
  IsVulnerable : String → Bool

/-- A run of a handler: the response writer as it is left, the requests
handed to `h.client.Do`, and the limits handed to `List`. -/
structure ApiRun where
  w : ResponseWriter
  outbound : List Request
  listed : List Int
  deriving DecidableEq, Repr

/-- Go `encodeJSONResponse` (pkg/api/handler.go).  `encoded` is the outcome of
`encoder.Encode(data)`: the JSON text written, or the error. -/
def encodeJSONResponse (w : ResponseWriter) (encoded : Except ApiError String) :
    ResponseWriter × Option ApiError :=
  let w1 := { w with header := Header.Set w.header "Content-Type" "application/json" }
  match encoded with
  | Except.ok text => (w1.Write text, none)
  | Except.error err => (w1, some err)

/-- Go `Handler.ListRequests` (pkg/api/handler.go). -/
def ListRequests (env : ApiEnv) (w : ResponseWriter) (r : Request) : ApiRun :=
  let limit := (parseLimitParam env.query r).getD defaultListSize
  match env.requestsList limit with
  | Except.error err =>
    { w := HTTPError w "Failed to list requests" 500 (some err), outbound := [], listed := [limit] }
  | Except.ok requests =>
    match encodeJSONResponse w (env.encodeRequests requests) with
    | (w1, some err) =>
      { w := HTTPError w1 "Failed to encode response" 500 (some err)
        outbound := [], listed := [limit] }
    | (w1, none) => { w := w1, outbound := [], listed := [limit] }

/-- Go `Handler.ListResponses` (pkg/api/handler.go). -/
def ListResponses (env : ApiEnv) (w : ResponseWriter) (r : Request) : ApiRun :=
  let limit := (parseLimitParam env.query r).getD defaultListSize
  match env.responsesList limit with
  | Except.error err =>
    { w := HTTPError w "Failed to list responses" 500 (some err)
      outbound := [], listed := [limit] }
  | Except.ok responses =>
    match encodeJSONResponse w (env.encodeResponses responses) with
    | (w1, some err) =>
      { w := HTTPError w1 "Failed to encode response" 500 (some err)
        outbound := [], listed := [limit] }
    | (w1, none) => { w := w1, outbound := [], listed := [limit] }

/-- Go `buildScanResult` (pkg/api/handler.go).  `isVulnerable` stands for
`xxe.IsVulnerable`. -/
def buildScanResult (isVulnerable : String → Bool) (body : String) : String :=
  if isVulnerable body then "Request vulnerable, response:\n" ++ body ++ "\n"
  else "Request is not vulnerable, response:\n" ++ body ++ "\n"

/-- Go `Handler.ScanRequest` (pkg/api/handler.go). -/
def ScanRequest (env : ApiEnv) (w : ResponseWriter) (requestID : String) : ApiRun :=
  match env.requestsGetEncoded requestID with
  | Except.error err =>
    { w := HTTPError w "Failed to get request" 404 (some err), outbound := [], listed := [] }
  | Except.ok req =>
    match env.AddVulnerability req with
    | Except.error err =>
      { w := HTTPError w "Failed to modify request" 500 (some err), outbound := [], listed := [] }
    | Except.ok (hadXML, req1) =>
      if !hadXML then
        { w := w.Write "No XML content in request\n", outbound := [], listed := [] }
      else
        match env.clientDo req1 with
        | Except.error err =>
          { w := HTTPError w "Failed to scan request" 502 (some err)
            outbound := [req1], listed := [] }
        | Except.ok resp =>
          match (ReadAll resp.Body).2.1 with
          | some err =>
            { w := HTTPError w "Failed to read response" 500
                (some { kind := ErrKind.upstream, text := err })
              outbound := [req1], listed := [] }
          | none =>
            { w := w.Write (buildScanResult env.IsVulnerable (ReadAll resp.Body).1)
              outbound := [req1], listed := [] }

/-! ## Package proxy: the certificate cache -/

/-- The calls the minting of a certificate makes on the outside world. -/
inductive MintEvent where
  | run (host : String)
  | create (path : String)
  | write (path bytes : String)
  deriving DecidableEq, Repr

/-- The outside world of the minting: the run of `./https/gen.sh host` (its
standard output, or the error of `cmd.Run`, which includes a non-zero exit),
`os.Create` and the `io.Copy` into the file (`none` is success). -/
structure MintEnv where
  run : String → Except String String
  create : String → Option String
  write : String → String → Option String

/-- Go function `generateCertificate` (pkg/proxy/handler.go): the result and
the calls made. -/
def generateCertificate (env : MintEnv) (host : String) :
    Except String String × List MintEvent :=
  match env.run host with
  | Except.error err => (Except.error err, [MintEvent.run host])
  | Except.ok res =>
    let path := "certs/" ++ host ++ ".crt"
    match env.create path with
    | some err => (Except.error err, [MintEvent.run host, MintEvent.create path])
    | none =>
      match env.write path res with
      | some err =>
        (Except.error err,
          [MintEvent.run host, MintEvent.create path, MintEvent.write path res])
      | none =>
        if res = "" then
          (Except.error "0 bytes written during certificate creation",
            [MintEvent.run host, MintEvent.create path, MintEvent.write path res])
        else
          (Except.ok res,
            [MintEvent.run host, MintEvent.create path, MintEvent.write path res])

/-- The field `certs` of the proxy `Handler`, with the calls made on the
outside world so far. -/
structure CertCache where
  certs : GoMap String
  log : List MintEvent
  deriving DecidableEq, Repr

/-- Go method `Handler.generateCertificate` (pkg/proxy/handler.go).  The
body runs with the mutex held, so a call is one step on the cache.  Returns
the error (`none` is nil) and the cache afterwards. -/
def Handler.generateCertificate (env : MintEnv) (h : CertCache) (host : String) :
    Option String × CertCache :=
  match GoMap.get h.certs host with
  | some _ => (none, h)
  | none =>
    match Proxy.generateCertificate env host with
    | (Except.error err, calls) =>
      (some ("error generating certificate: " ++ err), { h with log := h.log ++ calls })
    | (Except.ok cert, calls) =>
      (none, { certs := GoMap.set h.certs host cert, log := h.log ++ calls })

/-- A sequence of `k` calls `generateCertificate(host)`, one after the other:
what they return, and the cache afterwards. -/
def generateCertificateTimes (env : MintEnv) (host : String) :
    Nat → CertCache → List (Option String) × CertCache
  | 0, h => ([], h)
  | k + 1, h =>
    let first := Handler.generateCertificate env h host
    let later := generateCertificateTimes env host k first.2
    (first.1 :: later.1, later.2)

/-- The number of runs of the mint helper for `host` in a log. -/
def helperRuns (host : String) (log : List MintEvent) : Nat :=
  log.count (MintEvent.run host)

/-! ## Concrete inputs and specification predicates -/

/-- A captured header map with a two-valued and a one-valued header. -/
def capturedHeaders : Values :=
  [("Accept", ["text/html", "application/json"]), ("X-Id", ["7"])]

/-- The record stored for a request `GET http://origin/a` with the header map
`capturedHeaders`. -/
def capturedRecord : RequestData :=
  { ID := "", Method := "GET", Scheme := "http", Host := "origin", Path := "/a"
    GetParams := [], Headers := parseHTTPHeaders capturedHeaders, Cookies := []
    PostParams := [], Body := "", Timestamp := 0 }

/-- The URL of scenario 1, `http://origin/a?x=1;y=2`. -/
def scenarioURL : URL :=
  { Scheme := "http", Host := "origin", Path := "/a", RawQuery := "x=1;y=2" }

/-- The multi-map a stored document stands for, in the words of the
specification (a mapping from name to ordered list of values): a string is
one value, an array is its values in order. -/
def storedValues (doc : BsonM) : Values :=
  doc.map (fun e =>
    (e.1, match e.2 with
          | BsonValue.str v => [v]
          | BsonValue.strSlice vs => vs
          | BsonValue.ifaceSlice xs => convertToStringSlice xs
          | BsonValue.other => []))

/-- The request `CONNECT example.tld HTTP/1.1` as `http.ReadRequest` returns
it: the authority is the URL host and the scheme is left empty. -/
def connectNoPort : Request :=
  { Method := "CONNECT", URL := { Scheme := "", Host := "example.tld", Path := "", RawQuery := "" }
    Host := "example.tld", Header := [], Body := [] }

/-- The request `CONNECT example.tld:8443 HTTP/1.1`. -/
def connectWithPort : Request :=
  { Method := "CONNECT"
    URL := { Scheme := "", Host := "example.tld:8443", Path := "", RawQuery := "" }
    Host := "example.tld:8443", Header := [], Body := [] }

/-- The request `GET https://origin/a HTTP/1.1` sent to the proxy in clear. -/
def getHTTPSNoPort : Request :=
  { Method := "GET", URL := { Scheme := "https", Host := "origin", Path := "/a", RawQuery := "" }
    Host := "origin", Header := [], Body := [] }

/-- The request `GET http://origin/a HTTP/1.1`. -/
def getHTTPNoPort : Request :=
  { Method := "GET", URL := { Scheme := "http", Host := "origin", Path := "/a", RawQuery := "" }
    Host := "origin", Header := [], Body := [] }

/-- Collaborators that all succeed: the inner request is `GET /`, the origin
would answer `200 OK` with the body `hi`, the stores accept everything. -/
def quietEnv : Env Unit :=
  { tlsUpgrade := fun _ => none
    readRequest := Except.ok
      { Method := "GET", URL := { Scheme := "", Host := "", Path := "/", RawQuery := "" }
        Host := "example.tld", Header := [], Body := [] }
    TLSConnect := fun _ _ => none
    TCPConnect := fun _ _ => none
    requestSave := fun _ => Except.ok "0123456789abcdef01234567"
    origin :=
      { setWriteDeadline := none, write := fun _ => none, setReadDeadline := none
        readResponse := Except.ok
          { Status := "200 OK", StatusCode := 200, Header := [], Body := [ReadEvent.data "hi"]
            ContentLength := 2, RequestMethod := "GET" } }
    responseSave := fun s _ resp =>
      (Outcome.returned (Except.ok "89abcdef0123456789abcdef"), resp, s)
    setWriteDeadline := none
    connWrite := fun _ => none }

/-- A response `200 OK` whose body reads as `abc`. -/
def okResponse : Response :=
  { Status := "200 OK", StatusCode := 200, Header := [("Content-Type", ["text/plain"])]
    Body := [ReadEvent.data "ab", ReadEvent.data "c"]
    ContentLength := 3, RequestMethod := "GET" }

/-- A response announcing ten octets whose body delivers `abc` and then
fails, as when the origin closes the connection in the middle of the body;
after the error the reader is at its end. -/
def truncatedResponse : Response :=
  { Status := "200 OK", StatusCode := 200, Header := [("Content-Length", ["10"])]
    Body := [ReadEvent.data "abc", ReadEvent.fail "unexpected EOF"]
    ContentLength := 10, RequestMethod := "GET" }

/-- Collaborators that all succeed, with `MongoResponseSaver` as the response
store and an origin from which `resp` would be read. -/
def mongoEnv (resp : Response) (insertOne : Except String ObjectID) : Env Collection :=
  { tlsUpgrade := fun _ => none
    readRequest := Except.ok
      { Method := "GET", URL := { Scheme := "", Host := "", Path := "/", RawQuery := "" }
        Host := "example.tld", Header := [], Body := [] }
    TLSConnect := fun _ _ => none
    TCPConnect := fun _ _ => none
    requestSave := fun _ => Except.ok "0123456789abcdef01234567"
    origin :=
      { setWriteDeadline := none, write := fun _ => none, setReadDeadline := none
        readResponse := Except.ok resp }
    responseSave := mongoResponseSave insertOne 0
    setWriteDeadline := none
    connWrite := fun _ => none }

/-- A request as the proxy receives it, with hop-by-hop headers. -/
def browserRequest : Request :=
  { Method := "GET"
    URL := { Scheme := "", Host := "origin", Path := "/a", RawQuery := "x=1" }
    Host := "origin"
    Header := [("Proxy-Connection", ["keep-alive"]), ("Accept", ["a", "b"]),
      ("Accept-Encoding", ["gzip", "br"]), ("X-Id", ["7"])]
    Body := [ReadEvent.data "payload"] }

/-- The text after the first space of a status, in the words of the
specification. -/
def afterFirstSpace (status : String) : String :=
  ⟨(status.data.dropWhile (fun c => !decide (c = ' '))).drop 1⟩

/-- The text `t` is the text `s` with surrounding white space trimmed, in the
words of the specification: `s` is `t` between two runs of white space, and
`t` neither starts nor ends with white space. -/
def isTrimOf (s t : List Char) : Prop :=
  ∃ before after, s = before ++ t ++ after ∧
    (∀ c ∈ before, isSpace c = true) ∧ (∀ c ∈ after, isSpace c = true) ∧
    (∀ c, t.head? = some c → isSpace c = false) ∧
    (∀ c, t.getLast? = some c → isSpace c = false)

/-- A trace in which nothing is written to the origin, no response is saved
and nothing is written to the client. -/
def stopsBeforeOrigin (trace : List Event) : Bool :=
  trace.all (fun e =>
    match e with
    | Event.originWrite _ => false
    | Event.saveResponse _ _ => false
    | Event.connWrite _ => false
    | _ => true)

/-- A helper that prints a certificate, with a `certs` directory that cannot
be written. -/
def readOnlyMintEnv : MintEnv :=
  { run := fun _ => Except.ok "CERT"
    create := fun _ => some "permission denied"
    write := fun _ _ => none }

/-- A helper that prints a certificate, with a writable `certs` directory. -/
def workingMintEnv : MintEnv :=
  { run := fun host => Except.ok ("CERT " ++ host)
    create := fun _ => none
    write := fun _ _ => none }

/-- Order of two object IDs, octet by octet. -/
def idLe : ObjectID → ObjectID → Bool
  | [], _ => true
  | _ :: _, [] => false
  | a :: as, b :: bs => if a < b then true else if b < a then false else idLe as bs

/-- Insertion of a record into a list sorted by descending `_id`. -/
def insertDesc (d : ObjectID × ResponseDoc) :
    List (ObjectID × ResponseDoc) → List (ObjectID × ResponseDoc)
  | [] => [d]
  | x :: xs => if idLe x.1 d.1 then d :: x :: xs else x :: insertDesc d xs

/-- A sample store for `Find`: the records by descending `_id`, cut at the
limit; a limit of 0 means no limit, a negative limit means its absolute
value. -/
def mongoFind (coll : Collection) (limit : Int) : List (ObjectID × ResponseDoc) :=
  let sorted := coll.foldr insertDesc []
  if limit = 0 then sorted else sorted.take limit.natAbs

/-- Collaborators of the inspection API: the store lookups answer `lookup`,
the client answers `outcome`, the probe reports `hadXML`, the store holds
`coll` behind `MongoResponseSaver.List`; encoding and dumping succeed. -/
def sampleApiEnv (lookup : Option ApiError) (outcome : Except ApiError Response)
    (hadXML : Bool) (coll : Collection) : ApiEnv :=
  { query := ParseQuery
    requestsGet := fun _ =>
      match lookup with
      | some err => Except.error err
      | none => Except.ok capturedRecord
    requestsGetEncoded := fun _ =>
      match lookup with
      | some err => Except.error err
      | none => Except.ok getHTTPNoPort
    requestsList := fun _ => Except.ok []
    responsesList := fun limit =>
      match MongoResponseSaver.List (fun _ opts => Except.ok (mongoFind coll opts.Limit)) none
        limit with
      | Except.error err => Except.error { kind := ErrKind.store, text := err }
      | Except.ok docs => Except.ok docs
    clientDo := fun _ => outcome
    encodeRequest := fun _ => Except.ok "JSON\n"
    encodeRequests := fun _ => Except.ok "JSON\n"
    encodeResponses := fun docs => Except.ok (String.join (docs.map (fun d => d.2.body)) ++ "\n")
    dumpRequest := fun _ => Except.ok "GET /a HTTP/1.1\r\nHost: origin\r\n\r\n"
    AddVulnerability := fun req => Except.ok (hadXML, req)
    IsVulnerable := fun body => body = "oracle" }

/-- A collection of two response records. -/
def twoResponses : Collection :=
  [([1], { code := 200, message := "OK", headers := [], request_id := [9], body := "one"
           timestamp := 1 }),
   ([2], { code := 404, message := "Not Found", headers := [], request_id := [8], body := "two"
           timestamp := 2 })]

/-- A request `GET /responses` of the inspection API with the given raw
query. -/
def listRequest (rawQuery : String) : Request :=
  { Method := "GET", URL := { Scheme := "", Host := "", Path := "/responses", RawQuery := rawQuery }
    Host := "localhost:8000", Header := [], Body := [] }

/-- The value of the last cookie of the list that carries the name, in the
words of the specification. -/
def lastValue (cookies : List Cookie) (name : String) : Option String :=
  (cookies.reverse.find? (fun c => decide (c.Name = name))).map Cookie.Value

/-! ## Lemmas on Go maps -/

theorem GoMap.get_set_ne {α : Type} (m : GoMap α) (k key : String) (v : α) (h : k ≠ key) :
    GoMap.get (GoMap.set m k v) key = GoMap.get m key := by
  induction m with
  | nil => simp [GoMap.set, GoMap.get, h]
  | cons e rest ih =>
    obtain ⟨k0, v0⟩ := e
    by_cases h0 : k0 = k
    · subst h0
      simp [GoMap.set, GoMap.get, h]
    · by_cases h1 : k0 = key
      · subst h1
        simp [GoMap.set, GoMap.get, h0]
      · simp [GoMap.set, GoMap.get, h0, h1, ih]

theorem GoMap.get_del {α : Type} (m : GoMap α) (k key : String) :
    GoMap.get (GoMap.del m k) key = if key = k then none else GoMap.get m key := by
  induction m with
  | nil => simp [GoMap.del, GoMap.get]
  | cons e rest ih =>
    obtain ⟨k0, v0⟩ := e
    simp only [GoMap.del] at ih
    by_cases h0 : k0 = k
    · subst h0
      by_cases h1 : key = k0
      · subst h1
        simpa [GoMap.del, GoMap.get] using ih
      · have h2 : ¬ k0 = key := fun h => h1 h.symm
        simpa [GoMap.del, GoMap.get, h1, h2] using ih
    · by_cases h1 : k0 = key
      · subst h1
        simp [GoMap.del, GoMap.get, h0]
      · simpa [GoMap.del, GoMap.get, h0, h1] using ih

/-! ## The BSON conversions -/

theorem convertToBSON_get (m : Values) (k : String) :
    GoMap.get (convertToBSON m) k =
      (GoMap.get m k).map (fun vals =>
        match vals with
        | [v] => BsonValue.str v
        | vals => BsonValue.strSlice vals) := by
  induction m with
  | nil => rfl
  | cons e rest ih =>
    obtain ⟨k0, vs⟩ := e
    by_cases h : k0 = k
    · simp [convertToBSON, GoMap.get, h]
    · simpa [convertToBSON, GoMap.get, h] using ih

theorem convertFromBSON_convertToBSON (m : Values) :
    convertFromBSON (convertToBSON m) = m.filter (fun e => decide (e.2.length = 1)) := by
  induction m with
  | nil => rfl
  | cons e rest ih =>
    obtain ⟨k, vs⟩ := e
    match vs with
    | [] => simpa [convertFromBSON, convertToBSON] using ih
    | [v] => simpa [convertFromBSON, convertToBSON] using ih
    | a :: b :: t => simpa [convertFromBSON, convertToBSON] using ih

/-- C1 (code defect).  Retrieval through `convertFromBSON` after
`convertToBSON` keeps exactly the keys that have one value: a key with two or
more values is stored with dynamic type `[]string`, for which the type switch
of `convertFromBSON` has no case, so the key is dropped.  On the map sending
`a` to the values `1`, `2` the result is the empty map.  A value of any
dynamic type other than `string` and `[]interface{}` is dropped alike; only a
`[]interface{}` gives its strings back. -/
theorem convert_roundtrip_drops_multi_valued :
    (∀ m : Values,
      convertFromBSON (convertToBSON m) = m.filter (fun e => decide (e.2.length = 1))) ∧
    convertFromBSON (convertToBSON [("a", ["1", "2"])]) = [] ∧
    GoMap.get (convertFromBSON (convertToBSON [("a", ["1", "2"])])) "a" = none ∧
    GoMap.get [("a", ["1", "2"])] "a" = some ["1", "2"] ∧
    convertFromBSON [("a", BsonValue.other)] = [] ∧
    convertFromBSON [("a", BsonValue.ifaceSlice [BsonElem.str "1", BsonElem.str "2"])]
      = [("a", ["1", "2"])] :=
  ⟨convertFromBSON_convertToBSON, by decide, by decide, by decide, by decide, by decide⟩

/-- C2 (code defect).  For the captured header map with the two-valued header
`Accept` and the one-valued header `X-Id`, stored as
`parseHTTPHeaders`, the request rebuilt by `createHTTPRequest` has the header
map holding `X-Id` only: the multi-valued header `Accept` is dropped. -/
theorem createHTTPRequest_drops_multi_valued_header :
    (createHTTPRequest NewRequest capturedRecord).map (fun req => req.Header)
      = Except.ok [("X-Id", ["7"])] ∧
    (createHTTPRequest NewRequest capturedRecord).map
      (fun req => GoMap.get req.Header "Accept") = Except.ok none ∧
    GoMap.get capturedHeaders "Accept" = some ["text/html", "application/json"] := by
  decide

/-! ## The query of a URL -/

theorem replaceAll_not_mem (s : String) (old new : Char) (h : old ≠ new) :
    old ∉ (replaceAll s old new).data := by
  simp only [replaceAll, List.mem_map, not_exists, not_and]
  intro c _
  by_cases hc : c = old
  · simp [hc, Ne.symm h]
  · simp [hc]

/-- C3 (counterexample).  For the raw query `x=1;y=2` the document returned
by `parseURLQuery` holds the plain strings `1` and `2`, not one-element
lists: it is neither the document of `[]string` values nor the document of
`[]interface{}` values that the claim describes. -/
theorem parseURLQuery_scenario_not_lists :
    (parseURLQuery ParseQuery scenarioURL).2
      = [("x", BsonValue.str "1"), ("y", BsonValue.str "2")] ∧
    (parseURLQuery ParseQuery scenarioURL).2
      ≠ [("x", BsonValue.strSlice ["1"]), ("y", BsonValue.strSlice ["2"])] ∧
    (parseURLQuery ParseQuery scenarioURL).2
      ≠ [("x", BsonValue.ifaceSlice [BsonElem.str "1"]),
         ("y", BsonValue.ifaceSlice [BsonElem.str "2"])] ∧
    GoMap.get (parseURLQuery ParseQuery scenarioURL).2 "x"
      ≠ (GoMap.get (ParseQuery (replaceAll scenarioURL.RawQuery ';' '&')) "x").map
          BsonValue.strSlice := by
  decide

/-- C3 (amended).  For every URL, `parseURLQuery` rewrites the raw query by
replacing every `;` with `&` (no `;` is left) and returns the document that
sends each parameter name of the parsed rewritten query to its value as a
plain string when the name has exactly one value, and to the ordered list of
all its values otherwise; names that are not parameters are absent.  For the
raw query `x=1;y=2` the document sends `x` to the string `1` and `y` to the
string `2`. -/
theorem parseURLQuery_spec :
    (∀ (query : String → Values) (input : URL),
      (parseURLQuery query input).1
        = { input with RawQuery := replaceAll input.RawQuery ';' '&' } ∧
      ';' ∉ (parseURLQuery query input).1.RawQuery.data ∧
      ∀ name : String,
        GoMap.get (parseURLQuery query input).2 name =
          (GoMap.get (query (replaceAll input.RawQuery ';' '&')) name).map (fun vals =>
            match vals with
            | [v] => BsonValue.str v
            | vals => BsonValue.strSlice vals)) ∧
    ParseQuery (replaceAll scenarioURL.RawQuery ';' '&') = [("x", ["1"]), ("y", ["2"])] ∧
    (parseURLQuery ParseQuery scenarioURL).2
      = [("x", BsonValue.str "1"), ("y", BsonValue.str "2")] := by
  refine ⟨fun query input => ⟨rfl, ?_, fun name => ?_⟩, by decide, by decide⟩
  · exact replaceAll_not_mem input.RawQuery ';' '&' (by decide)
  · exact convertToBSON_get _ name

/-! ## The rebuilt request -/

theorem canonical_content_type : CanonicalMIMEHeaderKey "Content-Type" = "Content-Type" := by
  decide

theorem ReadAll_newReader (s : String) : ReadAll (newReader s) = (s, none, []) := by
  simp [ReadAll, newReader]

theorem storedValues_convertToBSON (m : Values) : storedValues (convertToBSON m) = m := by
  induction m with
  | nil => rfl
  | cons e rest ih =>
    obtain ⟨k, vs⟩ := e
    simp only [storedValues, convertToBSON] at ih ⊢
    match vs with
    | [] => simp [ih]
    | [v] => simp [ih]
    | a :: b :: t => simp [ih]

/-- C5 (code defect).  `handleRequest` takes the port from `GetPort` on the
URL of the request it was handed, before it looks at the method.  A
`CONNECT` whose authority has no port has an empty scheme, so the TLS
connection to the origin is opened on port 80, not 443; an explicit port is
kept; on the plaintext path the default is 80 for an `http` URL and 443 for
an `https` URL. -/
theorem handleRequest_connect_default_port :
    GetPort connectNoPort.URL = "80" ∧
    (connectOrigin quietEnv connectNoPort).map Prod.snd
      = Except.ok [Event.tlsUpgrade "example.tld", Event.readRequest,
          Event.tlsConnect "example.tld" "80"] ∧
    (connectOrigin quietEnv connectWithPort).map Prod.snd
      = Except.ok [Event.tlsUpgrade "example.tld", Event.readRequest,
          Event.tlsConnect "example.tld" "8443"] ∧
    (connectOrigin quietEnv getHTTPNoPort).map Prod.snd
      = Except.ok [Event.tcpConnect "origin" "80"] ∧
    (connectOrigin quietEnv getHTTPSNoPort).map Prod.snd
      = Except.ok [Event.tcpConnect "origin" "443"] ∧
    (∀ u : URL, GetPort u =
      if Port u ≠ "" then Port u else if toLower u.Scheme = "https" then "443" else "80") := by
  refine ⟨by decide, by decide, by decide, by decide, by decide, fun u => rfl⟩

/-! ## Saving a response -/

theorem ReadAll_clean_left (body : Body) (h : (ReadAll body).2.1 = none) :
    (ReadAll body).2.2 = [] := by
  induction body with
  | nil => rfl
  | cons ev rest ih =>
    cases ev with
    | data bs => simpa [ReadAll] using ih (by simpa [ReadAll] using h)
    | fail err => simp [ReadAll] at h

theorem drop_indexOf_space (l : List Char) (h : ' ' ∈ l) :
    l.drop (l.indexOf ' ') = ' ' :: (l.dropWhile (fun c => !decide (c = ' '))).drop 1 := by
  induction l with
  | nil => simp at h
  | cons c cs ih =>
    by_cases hc : c = ' '
    · subst hc
      simp
    · have hmem : ' ' ∈ cs := by
        rcases List.mem_cons.mp h with h1 | h1
        · exact absurd h1.symm hc
        · exact h1
      rw [List.indexOf_cons_ne _ hc]
      simpa [List.dropWhile, hc] using ih hmem

theorem TrimSpace_cons_space (l : List Char) : TrimSpace ⟨' ' :: l⟩ = TrimSpace ⟨l⟩ := by
  have h : isSpace ' ' = true := by decide
  simp [TrimSpace, trimLeft, List.dropWhile, h]

theorem statusMessage_eq (status : String) :
    statusMessage status =
      if ' ' ∈ status.data then some (TrimSpace (afterFirstSpace status)) else none := by
  by_cases h : ' ' ∈ status.data
  · have hle : List.indexOf ' ' status.data ≤ status.data.length := List.indexOf_le_length
    have hle2 : (List.indexOf ' ' status.data : Int) ≤ (status.data.length : Int) := by
      exact_mod_cast hle
    have h0 : (0 : Int) ≤ (List.indexOf ' ' status.data : Int) := Int.natCast_nonneg _
    simp only [statusMessage, sliceFrom, Index, h, if_true, h0, hle2, and_self, Option.map_some',
      Int.toNat_ofNat]
    rw [drop_indexOf_space _ h, TrimSpace_cons_space]
    rfl
  · simp [statusMessage, sliceFrom, Index, h]

/-- C6 (counterexample).  With the request ID `xyz`, which is not 24
hexadecimal digits, `Save` returns an error without reading the body: the
body of the response reads as `abc`, and after `Save` has returned the
original body still has all its reads to deliver. -/
theorem Save_invalid_id_leaves_body_unread :
    ReadAll okResponse.Body = ("abc", none, []) ∧
    (MongoResponseSaver.Save [] (Except.ok [7]) 0 "xyz" okResponse).outcome
      = Outcome.returned (Except.error "the provided hex string is not a valid ObjectID") ∧
    (MongoResponseSaver.Save [] (Except.ok [7]) 0 "xyz" okResponse).original
      = [ReadEvent.data "ab", ReadEvent.data "c"] ∧
    (MongoResponseSaver.Save [] (Except.ok [7]) 0 "xyz" okResponse).original ≠ [] := by
  decide

/-- C6 (amended).  For every response whose body reads as `B`, every request
ID of 24 hexadecimal digits and every store outcome, `Save` reads the
original body to its end and leaves on the live response a fresh body that
reads as exactly `B`; when moreover the status holds a space, `Save`
returns: on a successful insert it returns the new ID and the collection
gains one record, whose body is `B` and whose request ID is the given one,
and on a failed insert it returns the store error and the collection is
unchanged. -/
theorem Save_drains_and_replays (coll : Collection) (insertOne : Except String ObjectID)
    (now : Nat) (requestID : String) (resp : Response) (oid : ObjectID) (B : String)
    (hid : ObjectIDFromHex requestID = some oid)
    (hbody : (ReadAll resp.Body).1 = B) (hclean : (ReadAll resp.Body).2.1 = none) :
    (MongoResponseSaver.Save coll insertOne now requestID resp).original = [] ∧
    ReadAll (MongoResponseSaver.Save coll insertOne now requestID resp).resp.Body
      = (B, none, []) ∧
    (' ' ∈ resp.Status.data →
      (∀ id, insertOne = Except.ok id →
        (MongoResponseSaver.Save coll insertOne now requestID resp).outcome
          = Outcome.returned (Except.ok (Hex id)) ∧
        ∃ doc, (MongoResponseSaver.Save coll insertOne now requestID resp).coll
            = coll ++ [(id, doc)] ∧ doc.body = B ∧ doc.request_id = oid) ∧
      (∀ err, insertOne = Except.error err →
        (MongoResponseSaver.Save coll insertOne now requestID resp).outcome
          = Outcome.returned (Except.error err) ∧
        (MongoResponseSaver.Save coll insertOne now requestID resp).coll = coll)) := by
  have hleft := ReadAll_clean_left resp.Body hclean
  have hmsg : ' ' ∈ resp.Status.data → ∃ m, statusMessage resp.Status = some m := by
    intro hsp
    exact ⟨_, by rw [statusMessage_eq, if_pos hsp]⟩
  refine ⟨?_, ?_, ?_⟩
  · simp only [MongoResponseSaver.Save, hid, hclean]
    cases statusMessage resp.Status <;> cases insertOne <;> simp [hleft]
  · simp only [MongoResponseSaver.Save, hid, hclean]
    cases statusMessage resp.Status <;> cases insertOne <;> simp [ReadAll_newReader, hbody]
  · intro hsp
    obtain ⟨m, hm⟩ := hmsg hsp
    refine ⟨fun id hins => ?_, fun err hins => ?_⟩
    · subst hins
      simp [MongoResponseSaver.Save, hid, hclean, hm, hbody]
    · subst hins
      simp [MongoResponseSaver.Save, hid, hclean, hm]

/-- C6 (amended), at a response `200 OK` whose body reads as `abc`. -/
theorem Save_drains_and_replays_witness :
    ObjectIDFromHex "0123456789abcdef01234567"
      = some [1, 35, 69, 103, 137, 171, 205, 239, 1, 35, 69, 103] ∧
    (ReadAll okResponse.Body).1 = "abc" ∧ (ReadAll okResponse.Body).2.1 = none ∧
    (MongoResponseSaver.Save [] (Except.ok [7]) 0 "0123456789abcdef01234567" okResponse).original
      = [] ∧
    ReadAll (MongoResponseSaver.Save [] (Except.ok [7]) 0 "0123456789abcdef01234567"
      okResponse).resp.Body = ("abc", none, []) :=
  ⟨by decide, by decide, by decide,
    (Save_drains_and_replays [] (Except.ok [7]) 0 "0123456789abcdef01234567" okResponse
      [1, 35, 69, 103, 137, 171, 205, 239, 1, 35, 69, 103] "abc"
      (by decide) (by decide) (by decide)).1,
    (Save_drains_and_replays [] (Except.ok [7]) 0 "0123456789abcdef01234567" okResponse
      [1, 35, 69, 103, 137, 171, 205, 239, 1, 35, 69, 103] "abc"
      (by decide) (by decide) (by decide)).2.1⟩

/-! ## The capture and forward steps of `handleRequest` -/

/-- C7 (counterexample).  A response announcing ten octets delivers `abc` and
then fails with "unexpected EOF".  `Save` returns that error and stores no
record; the `WriteResponse` that follows finds the body at its end, fails on
the content length, and hands nothing to `conn.Write`: the bytes `abc` are
neither captured nor forwarded.  Nor are they in a whole run of
`handleRequest` against an origin that answers so: the run ends before the
origin is written to, with the response store empty. -/
theorem truncated_body_lost :
    ReadAll truncatedResponse.Body = ("abc", some "unexpected EOF", []) ∧
    (MongoResponseSaver.Save [] (Except.ok [7]) 0 "0123456789abcdef01234567"
      truncatedResponse).outcome = Outcome.returned (Except.error "unexpected EOF") ∧
    (MongoResponseSaver.Save [] (Except.ok [7]) 0 "0123456789abcdef01234567"
      truncatedResponse).coll = [] ∧
    (saveAndWriteResponse (mongoResponseSave (Except.ok [7]) 0) none (fun _ => none) []
      "0123456789abcdef01234567" truncatedResponse).store = [] ∧
    (saveAndWriteResponse (mongoResponseSave (Except.ok [7]) 0) none (fun _ => none) []
      "0123456789abcdef01234567" truncatedResponse).result
      = Outcome.returned
          (some "dump response failed: http: ContentLength=10 with Body length 0") ∧
    (saveAndWriteResponse (mongoResponseSave (Except.ok [7]) 0) none (fun _ => none) []
      "0123456789abcdef01234567" truncatedResponse).trace
      = [Event.saveResponse "0123456789abcdef01234567" truncatedResponse] ∧
    (handleRequest (mongoEnv truncatedResponse (Except.ok [7])) [] getHTTPNoPort).store = [] ∧
    stopsBeforeOrigin
      (handleRequest (mongoEnv truncatedResponse (Except.ok [7])) [] getHTTPNoPort).trace
      = true := by
  decide

theorem WriteResponse_body (setWriteDeadline : Option String) (connWrite : Dump → Option String)
    (resp : Response) (bytes : Dump)
    (h : (WriteResponse setWriteDeadline connWrite resp).2 = some bytes) :
    bytes.Body = (ReadAll resp.Body).1 ∨ bytes.Body = "" := by
  unfold WriteResponse at h
  cases setWriteDeadline with
  | some e => simp at h
  | none =>
    simp only at h
    cases hd : DumpResponse resp with
    | error e => rw [hd] at h; simp at h
    | ok dump =>
      rw [hd] at h
      have hb : bytes = dump := by
        simp only at h
        cases hc : connWrite dump <;> rw [hc] at h <;> simp at h <;> exact h.symm
      subst hb
      unfold DumpResponse at hd
      dsimp only at hd
      repeat' split at hd
      all_goals first
        | (simp at hd; done)
        | (simp only [Except.ok.injEq] at hd
           rw [← hd]
           first
             | exact Or.inl rfl
             | exact Or.inr rfl)

theorem WriteResponse_length_mismatch (setWriteDeadline : Option String)
    (connWrite : Dump → Option String) (resp : Response)
    (hbody : resp.Body = []) (hlen : 0 < resp.ContentLength)
    (hmethod : resp.RequestMethod ≠ "HEAD") :
    (WriteResponse setWriteDeadline connWrite resp).2 = none ∧
    ∃ err, (WriteResponse setWriteDeadline connWrite resp).1 = some err := by
  have h0 : resp.ContentLength ≠ 0 := by omega
  have h1 : resp.ContentLength ≠ -1 := by omega
  cases setWriteDeadline with
  | some e => exact ⟨rfl, _, rfl⟩
  | none =>
    have hd : ∃ err, DumpResponse resp = Except.error err := by
      unfold DumpResponse
      simp [hbody, ReadAll, hmethod, h0, h1, byteLength]
    obtain ⟨err, hd⟩ := hd
    simp [WriteResponse, hd]

/-- C7 (amended).  If reading the response body delivers `P` and then a read
error, leaving the reader at `rest`, then `MongoResponseSaver.Save` returns
that error, stores no record (the collection is unchanged) and installs no
replay body; the `WriteResponse` that follows it in `handleRequest` works on
the body as left after the error, so whatever it hands to the client was
read after the error, and `P` is neither captured nor forwarded.  When the
reader is left at its end and the response announced a positive content
length (and is no answer to `HEAD`), nothing is handed to the client and
`WriteResponse` returns an error. -/
theorem saveAndWriteResponse_read_error (setWriteDeadline : Option String)
    (connWrite : Dump → Option String) (insertOne : Except String ObjectID) (now : Nat)
    (coll : Collection) (requestId : String) (oid : ObjectID) (resp : Response)
    (P err : String) (rest : Body)
    (hid : ObjectIDFromHex requestId = some oid)
    (hread : ReadAll resp.Body = (P, some err, rest)) :
    (MongoResponseSaver.Save coll insertOne now requestId resp).outcome
      = Outcome.returned (Except.error err) ∧
    (MongoResponseSaver.Save coll insertOne now requestId resp).coll = coll ∧
    (MongoResponseSaver.Save coll insertOne now requestId resp).resp
      = { resp with Body := rest } ∧
    (saveAndWriteResponse (mongoResponseSave insertOne now) setWriteDeadline connWrite coll
      requestId resp).store = coll ∧
    (saveAndWriteResponse (mongoResponseSave insertOne now) setWriteDeadline connWrite coll
      requestId resp).result
      = Outcome.returned
          (WriteResponse setWriteDeadline connWrite { resp with Body := rest }).1 ∧
    (saveAndWriteResponse (mongoResponseSave insertOne now) setWriteDeadline connWrite coll
      requestId resp).trace
      = Event.saveResponse requestId resp ::
          ((WriteResponse setWriteDeadline connWrite { resp with Body := rest }).2.map
            Event.connWrite).toList ∧
    (∀ bytes, (WriteResponse setWriteDeadline connWrite { resp with Body := rest }).2
        = some bytes →
      bytes.Body = (ReadAll rest).1 ∨ bytes.Body = "") ∧
    (rest = [] → 0 < resp.ContentLength → resp.RequestMethod ≠ "HEAD" →
      (WriteResponse setWriteDeadline connWrite { resp with Body := rest }).2 = none ∧
      ∃ e, (WriteResponse setWriteDeadline connWrite { resp with Body := rest }).1
        = some e) := by
  have hs : MongoResponseSaver.Save coll insertOne now requestId resp
      = { outcome := Outcome.returned (Except.error err)
          resp := { resp with Body := rest }, original := rest, coll := coll } := by
    simp [MongoResponseSaver.Save, hid, hread]
  have hsave : mongoResponseSave insertOne now coll requestId resp
      = (Outcome.returned (Except.error err), { resp with Body := rest }, coll) := by
    simp [mongoResponseSave, hs]
  refine ⟨by rw [hs], by rw [hs], by rw [hs], ?_, ?_, ?_, fun bytes hb => ?_,
    fun hrest hlen hm => ?_⟩
  · simp [saveAndWriteResponse, hsave]
  · simp [saveAndWriteResponse, hsave]
  · simp [saveAndWriteResponse, hsave]
  · exact WriteResponse_body setWriteDeadline connWrite { resp with Body := rest } bytes hb
  · exact WriteResponse_length_mismatch setWriteDeadline connWrite { resp with Body := rest }
      hrest hlen hm

/-- C7 (amended), at the response announcing ten octets that delivers `abc`
and then fails. -/
theorem saveAndWriteResponse_read_error_witness :
    (MongoResponseSaver.Save [] (Except.ok [7]) 0 "0123456789abcdef01234567"
      truncatedResponse).outcome = Outcome.returned (Except.error "unexpected EOF") ∧
    (saveAndWriteResponse (mongoResponseSave (Except.ok [7]) 0) none (fun _ => none) []
      "0123456789abcdef01234567" truncatedResponse).store = [] ∧
    (WriteResponse none (fun _ => none) { truncatedResponse with Body := [] }).2 = none :=
  have h := saveAndWriteResponse_read_error none (fun _ => none) (Except.ok [7]) 0 []
    "0123456789abcdef01234567" [1, 35, 69, 103, 137, 171, 205, 239, 1, 35, 69, 103]
    truncatedResponse "abc" "unexpected EOF" [] (by decide) (by decide)
  ⟨h.1, h.2.2.2.1, (h.2.2.2.2.2.2.2 rfl (by decide) (by decide)).1⟩

theorem Save_resp_independent_of_store (coll : Collection) (now : Nat) (requestID : String)
    (resp : Response) (a b : Except String ObjectID) :
    (MongoResponseSaver.Save coll a now requestID resp).resp
      = (MongoResponseSaver.Save coll b now requestID resp).resp := by
  unfold MongoResponseSaver.Save
  cases ObjectIDFromHex requestID with
  | none => rfl
  | some oid =>
    cases h1 : (ReadAll resp.Body).2.1 with
    | some err => simp
    | none =>
      cases h2 : statusMessage resp.Status with
      | none => simp [h2]
      | some m => cases a <;> cases b <;> simp [h2]

theorem Save_dump_unchanged (coll : Collection) (insertOne : Except String ObjectID)
    (now : Nat) (requestID : String) (resp : Response)
    (hclean : (ReadAll resp.Body).2.1 = none) :
    DumpResponse (MongoResponseSaver.Save coll insertOne now requestID resp).resp
      = DumpResponse resp := by
  unfold MongoResponseSaver.Save
  cases ObjectIDFromHex requestID with
  | none => rfl
  | some oid =>
    simp only [hclean]
    cases statusMessage resp.Status <;> cases insertOne <;>
      simp [DumpResponse, ReadAll_newReader, hclean]

theorem TrimSpace_spec (s : String) : isTrimOf s.data (TrimSpace s).data := by
  have hsplit : s.data = s.data.takeWhile isSpace ++ s.data.dropWhile isSpace :=
    (List.takeWhile_append_dropWhile isSpace s.data).symm
  have hrev : (s.data.dropWhile isSpace).reverse
      = (s.data.dropWhile isSpace).reverse.takeWhile isSpace
        ++ (s.data.dropWhile isSpace).reverse.dropWhile isSpace :=
    (List.takeWhile_append_dropWhile isSpace _).symm
  have hcore : s.data.dropWhile isSpace
      = ((s.data.dropWhile isSpace).reverse.dropWhile isSpace).reverse
        ++ ((s.data.dropWhile isSpace).reverse.takeWhile isSpace).reverse := by
    have h := congrArg List.reverse hrev
    rwa [List.reverse_reverse, List.reverse_append] at h
  have ht : (TrimSpace s).data
      = ((s.data.dropWhile isSpace).reverse.dropWhile isSpace).reverse := rfl
  refine ⟨s.data.takeWhile isSpace,
    ((s.data.dropWhile isSpace).reverse.takeWhile isSpace).reverse, ?_, ?_, ?_, ?_, ?_⟩
  · rw [ht, List.append_assoc, ← hcore]
    exact hsplit
  · intro c hc
    exact List.mem_takeWhile_imp hc
  · intro c hc
    exact List.mem_takeWhile_imp (List.mem_reverse.mp hc)
  · intro c hc
    rw [ht] at hc
    have hne : ((s.data.dropWhile isSpace).reverse.dropWhile isSpace).reverse ≠ [] := by
      intro h0
      rw [h0] at hc
      simp at hc
    have hhead : (s.data.dropWhile isSpace).head? = some c := by
      rw [hcore, List.head?_append_of_ne_nil _ hne]
      exact hc
    have hnot := List.head?_dropWhile_not isSpace s.data
    rw [hhead] at hnot
    exact hnot
  · intro c hc
    rw [ht, List.getLast?_reverse] at hc
    have hnot := List.head?_dropWhile_not isSpace (s.data.dropWhile isSpace).reverse
    rw [hc] at hnot
    exact hnot

theorem afterFirstSpace_spec (status : String) (h : ' ' ∈ status.data) :
    ∃ code, ' ' ∉ code ∧ status.data = code ++ ' ' :: (afterFirstSpace status).data := by
  refine ⟨status.data.takeWhile (fun c => !decide (c = ' ')), ?_, ?_⟩
  · intro hmem
    have := List.mem_takeWhile_imp hmem
    simp at this
  · have hsplit := (List.takeWhile_append_dropWhile (fun c => !decide (c = ' '))
      status.data).symm
    have hdrop := drop_indexOf_space status.data h
    cases hd : status.data.dropWhile (fun c => !decide (c = ' ')) with
    | nil =>
      rw [hd] at hsplit
      rw [List.append_nil] at hsplit
      have hmem : ' ' ∈ status.data.takeWhile (fun c => !decide (c = ' ')) := by
        rw [← hsplit]
        exact h
      have := List.mem_takeWhile_imp hmem
      simp at this
    | cons c rest =>
      have hnot := List.head?_dropWhile_not (fun c => !decide (c = ' ')) status.data
      rw [hd] at hnot
      simp at hnot
      subst hnot
      rw [hd] at hsplit
      simp only [afterFirstSpace, hd, List.drop_succ_cons, List.drop_zero]
      exact hsplit

/-- C9.  The reason-phrase expression of `Save` yields a message exactly when
the status holds a space: the message is then the text after the first space
(the status is the code, a space, and that text) with surrounding white
space trimmed (the text is the message between two runs of white space, and
the message neither starts nor ends with white space), and a status without
a space, the empty status included, makes the slice expression panic.
Accordingly, for a request ID that decodes and a body that reads without
error, `Save` ends in the panic "slice bounds out of range [-1:]" exactly
when the status holds no space, and otherwise the record it inserts carries
that message.  The status `200 OK` gives `OK`, `404 Not Found` gives
`Not Found`, and white space around the phrase is dropped. -/
theorem Save_reason_phrase (coll : Collection) (now : Nat) (requestID : String)
    (resp : Response) (oid id : ObjectID)
    (hid : ObjectIDFromHex requestID = some oid)
    (hclean : (ReadAll resp.Body).2.1 = none) :
    (∀ status : String,
      statusMessage status =
        if ' ' ∈ status.data then some (TrimSpace (afterFirstSpace status)) else none) ∧
    (∀ status : String, (statusMessage status).isSome = true ↔ ' ' ∈ status.data) ∧
    statusMessage "" = none ∧
    ((MongoResponseSaver.Save coll (Except.ok id) now requestID resp).outcome
        = Outcome.panicked "runtime error: slice bounds out of range [-1:]"
      ↔ ' ' ∉ resp.Status.data) ∧
    (' ' ∈ resp.Status.data →
      ∃ doc, (MongoResponseSaver.Save coll (Except.ok id) now requestID resp).coll
          = coll ++ [(id, doc)] ∧
        doc.message = TrimSpace (afterFirstSpace resp.Status)) ∧
    (∀ status : String, ' ' ∈ status.data →
      ∃ code message, ' ' ∉ code ∧
        status.data = code ++ ' ' :: (afterFirstSpace status).data ∧
        statusMessage status = some message ∧
        isTrimOf (afterFirstSpace status).data message.data) ∧
    statusMessage "200 OK" = some "OK" ∧
    statusMessage "404 Not Found" = some "Not Found" ∧
    statusMessage "200  \t OK \r\n" = some "OK" ∧
    statusMessage "500 Internal Server Error \u00a0" = some "Internal Server Error" ∧
    statusMessage "200 " = some "" ∧
    statusMessage "200" = none := by
  refine ⟨statusMessage_eq, fun status => ?_, by decide, ?_, fun hsp => ?_,
    fun status hsp => ?_, by decide, by decide, by decide, by decide, by decide, by decide⟩
  · rw [statusMessage_eq]
    by_cases h : ' ' ∈ status.data <;> simp [h]
  · by_cases h : ' ' ∈ resp.Status.data
    · have hm := statusMessage_eq resp.Status
      rw [if_pos h] at hm
      simp [MongoResponseSaver.Save, hid, hclean, hm, h]
    · have hm := statusMessage_eq resp.Status
      rw [if_neg h] at hm
      simp [MongoResponseSaver.Save, hid, hclean, hm, h]
  · have hm := statusMessage_eq resp.Status
    rw [if_pos hsp] at hm
    simp [MongoResponseSaver.Save, hid, hclean, hm]
  · obtain ⟨code, hc1, hc2⟩ := afterFirstSpace_spec status hsp
    refine ⟨code, TrimSpace (afterFirstSpace status), hc1, hc2, ?_, TrimSpace_spec _⟩
    rw [statusMessage_eq, if_pos hsp]

/-- C9, at the status `404 Not Found`, whose record carries the message
`Not Found`, and at the status `200` without a reason phrase, where `Save`
panics. -/
theorem Save_reason_phrase_witness :
    ObjectIDFromHex "0123456789abcdef01234567"
      = some [1, 35, 69, 103, 137, 171, 205, 239, 1, 35, 69, 103] ∧
    (ReadAll okResponse.Body).2.1 = none ∧
    (∃ doc, (MongoResponseSaver.Save [] (Except.ok [7]) 0 "0123456789abcdef01234567"
        { okResponse with Status := "404 Not Found" }).coll = [] ++ [([7], doc)] ∧
      doc.message = "Not Found") ∧
    (MongoResponseSaver.Save [] (Except.ok [7]) 0 "0123456789abcdef01234567"
        { okResponse with Status := "200" }).outcome
      = Outcome.panicked "runtime error: slice bounds out of range [-1:]" := by
  refine ⟨by decide, by decide, ?_, ?_⟩
  · obtain ⟨doc, h1, h2⟩ :=
      (Save_reason_phrase [] 0 "0123456789abcdef01234567"
        { okResponse with Status := "404 Not Found" }
        [1, 35, 69, 103, 137, 171, 205, 239, 1, 35, 69, 103] [7]
        (by decide) (by decide)).2.2.2.2.1 (by decide)
    exact ⟨doc, h1, h2.trans (by decide)⟩
  · exact (Save_reason_phrase [] 0 "0123456789abcdef01234567"
      { okResponse with Status := "200" }
      [1, 35, 69, 103, 137, 171, 205, 239, 1, 35, 69, 103] [7]
      (by decide) (by decide)).2.2.2.1.mpr (by decide)

/-! ## Request hygiene -/

theorem canonical_proxy_connection :
    CanonicalMIMEHeaderKey "Proxy-Connection" = "Proxy-Connection" := by decide

theorem canonical_accept_encoding :
    CanonicalMIMEHeaderKey "Accept-Encoding" = "Accept-Encoding" := by decide

theorem prepareRequest_header (r : Request) :
    (prepareRequest r).Header =
      r.Header.filter (fun e =>
        !decide (e.1 = "Proxy-Connection") && !decide (e.1 = "Accept-Encoding")) := by
  simp only [prepareRequest, Header.Del, GoMap.del, canonical_proxy_connection,
    canonical_accept_encoding, List.filter_filter]
  congr 1
  funext e
  exact Bool.and_comm _ _

/-- C10.  For every request, `prepareRequest` clears the URL host and removes
every entry of the headers `Proxy-Connection` and `Accept-Encoding`, and
changes nothing else: the other header entries are kept as they are and in
their order, so every other header name keeps its values in order, and the
method, scheme, path, query, request host and body are unchanged; applying
it twice equals applying it once.  A request with both headers, each with
values, loses exactly these two. -/
theorem prepareRequest_spec (r : Request) :
    (prepareRequest r).URL.Host = "" ∧
    (prepareRequest r).Header =
      r.Header.filter (fun e =>
        !decide (e.1 = "Proxy-Connection") && !decide (e.1 = "Accept-Encoding")) ∧
    (∀ name : String, GoMap.get (prepareRequest r).Header name =
      if name = "Proxy-Connection" ∨ name = "Accept-Encoding" then none
      else GoMap.get r.Header name) ∧
    (prepareRequest r).Method = r.Method ∧
    (prepareRequest r).URL.Scheme = r.URL.Scheme ∧
    (prepareRequest r).URL.Path = r.URL.Path ∧
    (prepareRequest r).URL.RawQuery = r.URL.RawQuery ∧
    (prepareRequest r).Host = r.Host ∧
    (prepareRequest r).Body = r.Body ∧
    prepareRequest (prepareRequest r) = prepareRequest r ∧
    prepareRequest browserRequest =
      { browserRequest with
        URL := { browserRequest.URL with Host := "" }
        Header := [("Accept", ["a", "b"]), ("X-Id", ["7"])] } := by
  refine ⟨rfl, prepareRequest_header r, fun name => ?_, rfl, rfl, rfl, rfl, rfl, rfl, ?_,
    by decide⟩
  · simp only [prepareRequest, Header.Del, canonical_proxy_connection,
      canonical_accept_encoding, GoMap.get_del]
    by_cases h1 : name = "Accept-Encoding"
    · simp [h1]
    · by_cases h2 : name = "Proxy-Connection"
      · simp [h2]
      · simp [h1, h2]
  · have h := prepareRequest_header (prepareRequest r)
    rw [prepareRequest_header r, List.filter_filter] at h
    have hh : (prepareRequest (prepareRequest r)).Header = (prepareRequest r).Header := by
      rw [h, prepareRequest_header r]
      congr 1
      funext e
      simp
    cases r with
    | mk m u ho hd b =>
      cases u with
      | mk sc uh pa rq =>
        simp only [prepareRequest] at hh ⊢
        simp only [Request.mk.injEq, true_and, and_true]
        exact hh

/-! ## Cookies -/

theorem GoMap.get_set {α : Type} (m : GoMap α) (k key : String) (v : α) :
    GoMap.get (GoMap.set m k v) key = if k = key then some v else GoMap.get m key := by
  by_cases h : k = key
  · subst h
    simp only [if_true]
    induction m with
    | nil => simp [GoMap.set, GoMap.get]
    | cons e rest ih =>
      obtain ⟨k0, v0⟩ := e
      by_cases h0 : k0 = k
      · simp [GoMap.set, GoMap.get, h0]
      · simpa [GoMap.set, GoMap.get, h0] using ih
  · simp only [if_neg h]
    exact GoMap.get_set_ne m k key v h

theorem GoMap.keys_set {α : Type} (m : GoMap α) (k : String) (v : α) :
    GoMap.keys (GoMap.set m k v)
      = if k ∈ GoMap.keys m then GoMap.keys m else GoMap.keys m ++ [k] := by
  induction m with
  | nil => simp [GoMap.set, GoMap.keys]
  | cons e rest ih =>
    obtain ⟨k0, v0⟩ := e
    simp only [GoMap.keys] at ih
    by_cases h0 : k0 = k
    · subst h0
      simp [GoMap.set, GoMap.keys]
    · have h1 : ¬ k = k0 := fun h => h0 h.symm
      by_cases hm : k ∈ List.map Prod.fst rest
      · simp [GoMap.set, GoMap.keys, h0, h1, hm, ih]
      · simp [GoMap.set, GoMap.keys, h0, h1, hm, ih]

theorem lastValue_cons (c : Cookie) (cs : List Cookie) (name : String) :
    lastValue (c :: cs) name =
      match lastValue cs name with
      | some v => some v
      | none => if c.Name = name then some c.Value else none := by
  simp only [lastValue, List.reverse_cons, List.find?_append]
  cases h : List.find? (fun c => decide (c.Name = name)) cs.reverse with
  | some c1 => simp
  | none =>
    by_cases hn : c.Name = name
    · simp [List.find?, hn]
    · simp [List.find?, hn]

theorem foldl_set_get (cs : List Cookie) (m : GoMap String) (name : String) :
    GoMap.get
        (cs.foldl (fun result cookie => GoMap.set result cookie.Name cookie.Value) m) name =
      match lastValue cs name with
      | some v => some v
      | none => GoMap.get m name := by
  induction cs generalizing m with
  | nil => simp [lastValue]
  | cons c rest ih =>
    rw [List.foldl_cons, ih, lastValue_cons, GoMap.get_set]
    cases lastValue rest name with
    | some v => rfl
    | none =>
      by_cases hn : c.Name = name
      · simp [hn]
      · simp [hn]

theorem foldl_set_keys (cs : List Cookie) (m : GoMap String) :
    (GoMap.keys m).Nodup →
    (GoMap.keys
      (cs.foldl (fun result cookie => GoMap.set result cookie.Name cookie.Value) m)).Nodup ∧
    ∀ name, name ∈ GoMap.keys
        (cs.foldl (fun result cookie => GoMap.set result cookie.Name cookie.Value) m) ↔
      name ∈ GoMap.keys m ∨ ∃ c ∈ cs, c.Name = name := by
  induction cs generalizing m with
  | nil => intro h; simp [h]
  | cons c rest ih =>
    intro h
    have hk := GoMap.keys_set m c.Name c.Value
    have hnd : (GoMap.keys (GoMap.set m c.Name c.Value)).Nodup := by
      rw [hk]
      by_cases hm : c.Name ∈ GoMap.keys m
      · simpa [hm] using h
      · simp only [hm, if_false]
        exact List.Nodup.append h (List.nodup_singleton _) (by simpa using hm)
    obtain ⟨h1, h2⟩ := ih (GoMap.set m c.Name c.Value) hnd
    refine ⟨by simpa using h1, fun name => ?_⟩
    rw [List.foldl_cons, h2 name, hk]
    by_cases hm : c.Name ∈ GoMap.keys m
    · simp only [hm, if_true, List.mem_cons, exists_eq_or_imp]
      constructor
      · rintro (h3 | h3)
        · exact Or.inl h3
        · exact Or.inr (Or.inr h3)
      · rintro (h3 | h3 | h3)
        · exact Or.inl h3
        · exact Or.inl (h3 ▸ hm)
        · exact Or.inr h3
    · simp only [hm, if_false, List.mem_append, List.mem_singleton, List.mem_cons,
        List.not_mem_nil, or_false, exists_eq_or_imp]
      constructor
      · rintro ((h3 | h3) | h3)
        · exact Or.inl h3
        · exact Or.inr (Or.inl h3.symm)
        · exact Or.inr (Or.inr h3)
      · rintro (h3 | h3 | h3)
        · exact Or.inl (Or.inl h3)
        · exact Or.inl (Or.inr h3.symm)
        · exact Or.inr h3

/-- C15.  For every list of parsed cookies, `parseHTTPCookies` returns a map
with one entry per key, whose keys are exactly the cookie names occurring in
the list, and which maps each name to the value of the last cookie in the
list carrying that name (and no other name to anything). -/
theorem parseHTTPCookies_spec (cookies : List Cookie) :
    (GoMap.keys (parseHTTPCookies cookies)).Nodup ∧
    (∀ name, name ∈ GoMap.keys (parseHTTPCookies cookies) ↔
      ∃ c ∈ cookies, c.Name = name) ∧
    (∀ name, GoMap.get (parseHTTPCookies cookies) name = lastValue cookies name) ∧
    parseHTTPCookies [⟨"sid", "1"⟩, ⟨"theme", "dark"⟩, ⟨"sid", "2"⟩]
      = [("sid", "2"), ("theme", "dark")] := by
  obtain ⟨h1, h2⟩ := foldl_set_keys cookies [] (by simp [GoMap.keys])
  refine ⟨h1, fun name => ?_, fun name => ?_, by decide⟩
  · simpa [GoMap.keys, parseHTTPCookies] using h2 name
  · rw [parseHTTPCookies, foldl_set_get]
    cases lastValue cookies name <;> simp [GoMap.get]

/-! ## The certificate cache -/

theorem generateCertificate_ok (env : MintEnv) (host cert : String)
    (hrun : env.run host = Except.ok cert) (hcert : cert ≠ "")
    (hcreate : env.create ("certs/" ++ host ++ ".crt") = none)
    (hwrite : env.write ("certs/" ++ host ++ ".crt") cert = none) :
    generateCertificate env host =
      (Except.ok cert,
        [MintEvent.run host, MintEvent.create ("certs/" ++ host ++ ".crt"),
          MintEvent.write ("certs/" ++ host ++ ".crt") cert]) := by
  simp [generateCertificate, hrun, hcreate, hwrite, hcert]

theorem generateCertificateTimes_cached (env : MintEnv) (host : String) (k : Nat)
    (h : CertCache) (cert : String) (hhit : GoMap.get h.certs host = some cert) :
    generateCertificateTimes env host k h = (List.replicate k none, h) := by
  induction k with
  | zero => rfl
  | succ n ih =>
    simp [generateCertificateTimes, Handler.generateCertificate, hhit, ih, List.replicate_succ]

theorem Handler.generateCertificate_error (env : MintEnv) (h : CertCache) (host err : String)
    (hfail : (Proxy.generateCertificate env host).1 = Except.error err) :
    (Handler.generateCertificate env h host).2.certs = h.certs ∧
    (GoMap.get h.certs host = none →
      (Handler.generateCertificate env h host).1
        = some ("error generating certificate: " ++ err)) := by
  unfold Handler.generateCertificate
  cases hget : GoMap.get h.certs host with
  | some c => simp
  | none =>
    rcases hgen : Proxy.generateCertificate env host with ⟨res, calls⟩
    rw [hgen] at hfail
    simp only at hfail
    subst hfail
    simp

/-- C13 (counterexample).  The helper succeeds (it exits with status zero and
prints a certificate) but the file under `certs` cannot be created: each of
two calls `generateCertificate` for the same host runs the helper, returns
an error, and leaves the cache without the host.  The helper has run twice,
not once. -/
theorem generateCertificate_mints_again_when_unwritable :
    readOnlyMintEnv.run "dup.tld" = Except.ok "CERT" ∧
    (generateCertificateTimes readOnlyMintEnv "dup.tld" 2 { certs := [], log := [] }).1
      = [some "error generating certificate: permission denied",
         some "error generating certificate: permission denied"] ∧
    helperRuns "dup.tld"
      (generateCertificateTimes readOnlyMintEnv "dup.tld" 2 { certs := [], log := [] }).2.log
      = 2 ∧
    (generateCertificateTimes readOnlyMintEnv "dup.tld" 2 { certs := [], log := [] }).2.certs
      = [] := by
  decide

/-- C13 (amended).  Calls of `Handler.generateCertificate` are steps on the
cache, one at a time.  For every host and every sequence of one or more
calls for it, starting from a cache without the host, with a helper that
succeeds with a non-empty output that can be written to the file of the
host under `certs`: every call returns nil; the helper is run exactly once,
by the first call, whose output is stored under the host; the later calls
make no call on the outside world and leave the cache as the first call
left it; the entries of other hosts are not modified.  When the minting
fails, as it does when the helper fails or prints nothing, the call returns
an error and the cache is unchanged. -/
theorem generateCertificate_mints_once (env : MintEnv) (h : CertCache) (host cert : String)
    (K : Nat)
    (hmiss : GoMap.get h.certs host = none)
    (hrun : env.run host = Except.ok cert) (hcert : cert ≠ "")
    (hcreate : env.create ("certs/" ++ host ++ ".crt") = none)
    (hwrite : env.write ("certs/" ++ host ++ ".crt") cert = none) :
    (generateCertificateTimes env host (K + 1) h).1 = List.replicate (K + 1) none ∧
    (generateCertificateTimes env host (K + 1) h).2 = (Handler.generateCertificate env h host).2 ∧
    (generateCertificateTimes env host (K + 1) h).2.certs = GoMap.set h.certs host cert ∧
    GoMap.get (generateCertificateTimes env host (K + 1) h).2.certs host = some cert ∧
    (generateCertificateTimes env host (K + 1) h).2.log
      = h.log ++ [MintEvent.run host, MintEvent.create ("certs/" ++ host ++ ".crt"),
          MintEvent.write ("certs/" ++ host ++ ".crt") cert] ∧
    helperRuns host (generateCertificateTimes env host (K + 1) h).2.log
      = helperRuns host h.log + 1 ∧
    (∀ other, GoMap.get (generateCertificateTimes env host (K + 1) h).2.certs other
      = if host = other then some cert else GoMap.get h.certs other) ∧
    (∀ (env2 : MintEnv) (h2 : CertCache) (host2 err : String),
      (generateCertificate env2 host2).1 = Except.error err →
      (Handler.generateCertificate env2 h2 host2).2.certs = h2.certs ∧
      (GoMap.get h2.certs host2 = none →
        (Handler.generateCertificate env2 h2 host2).1
          = some ("error generating certificate: " ++ err))) ∧
    (∀ (env2 : MintEnv) (host2 err : String), env2.run host2 = Except.error err →
      (generateCertificate env2 host2).1 = Except.error err) ∧
    (∀ (env2 : MintEnv) (host2 : String), env2.run host2 = Except.ok "" →
      ∃ err, (generateCertificate env2 host2).1 = Except.error err) := by
  have hgen := generateCertificate_ok env host cert hrun hcert hcreate hwrite
  have hfirst : Handler.generateCertificate env h host
      = (none, { certs := GoMap.set h.certs host cert
                 log := h.log ++ [MintEvent.run host,
                   MintEvent.create ("certs/" ++ host ++ ".crt"),
                   MintEvent.write ("certs/" ++ host ++ ".crt") cert] }) := by
    simp [Handler.generateCertificate, hmiss, hgen]
  have hhit : GoMap.get (GoMap.set h.certs host cert) host = some cert := by
    rw [GoMap.get_set]; simp
  have hall : generateCertificateTimes env host (K + 1) h
      = (List.replicate (K + 1) none, (Handler.generateCertificate env h host).2) := by
    rw [generateCertificateTimes, hfirst]
    simp only
    rw [generateCertificateTimes_cached env host K _ cert hhit]
    simp [List.replicate_succ]
  refine ⟨by rw [hall], by rw [hall], by rw [hall, hfirst], by rw [hall, hfirst]; exact hhit,
    by rw [hall, hfirst], ?_, fun other => by rw [hall, hfirst]; exact GoMap.get_set _ _ _ _,
    fun env2 h2 host2 err hfail => Handler.generateCertificate_error env2 h2 host2 err hfail,
    fun env2 host2 err hfail => by simp [generateCertificate, hfail], fun env2 host2 hempty => ?_⟩
  · rw [hall, hfirst]
    simp [helperRuns, List.count_append, List.count_cons]
  · unfold generateCertificate
    rw [hempty]
    simp only
    cases env2.create ("certs/" ++ host2 ++ ".crt") with
    | some e => exact ⟨e, rfl⟩
    | none =>
      cases env2.write ("certs/" ++ host2 ++ ".crt") "" with
      | some e => exact ⟨e, rfl⟩
      | none => exact ⟨_, rfl⟩

/-- C13 (amended), at three calls for `dup.tld` on an empty cache. -/
theorem generateCertificate_mints_once_witness :
    (generateCertificateTimes workingMintEnv "dup.tld" 3 { certs := [], log := [] }).1
      = [none, none, none] ∧
    helperRuns "dup.tld"
      (generateCertificateTimes workingMintEnv "dup.tld" 3 { certs := [], log := [] }).2.log
      = 1 ∧
    (generateCertificateTimes workingMintEnv "dup.tld" 3 { certs := [], log := [] }).2.certs
      = [("dup.tld", "CERT dup.tld")] :=
  have h := generateCertificate_mints_once workingMintEnv { certs := [], log := [] } "dup.tld"
    "CERT dup.tld" 2 (by decide) (by decide) (by decide) (by decide) (by decide)
  ⟨h.1, h.2.2.2.2.2.1, h.2.2.1⟩

/-! ## The inspection handlers: failures and the scan -/

/-- C12.  For every response body `b`, `buildScanResult(b)` is the line
"Request vulnerable, response:" followed by `b` and a newline when
`xxe.IsVulnerable(b)` holds, and the line "Request is not vulnerable,
response:" followed by `b` and a newline otherwise, so the characters of `b`
stand unmodified between the first line and the final newline.  When the
probe reports no XML content, `ScanRequest` writes exactly "No XML content
in request" and a newline, with status 200, and hands no request to the
client; when the probe reports XML and the outbound call succeeds with a
body that reads as `b`, `ScanRequest` makes that one outbound call and
writes `buildScanResult(b)`. -/
theorem ScanRequest_result (env : ApiEnv) (requestID : String) (req req1 : Request)
    (hget : env.requestsGetEncoded requestID = Except.ok req) :
    (∀ b : String, buildScanResult env.IsVulnerable b =
      (if env.IsVulnerable b then "Request vulnerable, response:\n"
        else "Request is not vulnerable, response:\n") ++ b ++ "\n") ∧
    (∀ b : String, (buildScanResult env.IsVulnerable b).data =
      (if env.IsVulnerable b then "Request vulnerable, response:\n".data
        else "Request is not vulnerable, response:\n".data) ++ b.data ++ ['\n']) ∧
    (env.AddVulnerability req = Except.ok (false, req1) →
      ScanRequest env ResponseWriter.fresh requestID =
        { w := { header := [], status := some 200, body := "No XML content in request\n" }
          outbound := [], listed := [] }) ∧
    (∀ resp, env.AddVulnerability req = Except.ok (true, req1) →
      env.clientDo req1 = Except.ok resp → (ReadAll resp.Body).2.1 = none →
      ScanRequest env ResponseWriter.fresh requestID =
        { w := { header := [], status := some 200
                 body := buildScanResult env.IsVulnerable (ReadAll resp.Body).1 }
          outbound := [req1], listed := [] }) := by
  refine ⟨fun b => ?_, fun b => ?_, fun h => ?_, fun resp h1 h2 h3 => ?_⟩
  · unfold buildScanResult
    split <;> rfl
  · unfold buildScanResult
    split <;> simp [String.data_append]
  · simp [ScanRequest, hget, h, ResponseWriter.fresh, ResponseWriter.Write,
      ResponseWriter.WriteHeader]
  · simp [ScanRequest, hget, h1, h2, h3, ResponseWriter.fresh, ResponseWriter.Write,
      ResponseWriter.WriteHeader]

/-- C12, at a stored request without XML content. -/
theorem ScanRequest_result_witness :
    ScanRequest (sampleApiEnv none (Except.ok okResponse) false []) ResponseWriter.fresh
        "0123456789abcdef01234567" =
      { w := { header := [], status := some 200, body := "No XML content in request\n" }
        outbound := [], listed := [] } :=
  (ScanRequest_result (sampleApiEnv none (Except.ok okResponse) false [])
    "0123456789abcdef01234567" getHTTPNoPort getHTTPNoPort (by decide)).2.2.1 (by decide)

/-! ## Listing -/

theorem digit_char (d : Nat) (h : d < 10) :
    isDigit (Char.ofNat (48 + d)).toNat = true ∧ (Char.ofNat (48 + d)).toNat - 48 = d ∧
    Char.ofNat (48 + d) ≠ '+' ∧ Char.ofNat (48 + d) ≠ '-' := by
  interval_cases d <;> decide

theorem decimalDigits_value (fuel : Nat) :
    ∀ n, n < fuel →
      decimalDigits fuel n ≠ [] ∧
      (∀ c ∈ decimalDigits fuel n, c ≠ '+' ∧ c ≠ '-') ∧
      (decimalDigits fuel n).foldl (fun acc c =>
        match acc with
        | none => none
        | some m => if isDigit c.toNat then some (m * 10 + (c.toNat - 48)) else none) (some 0)
        = some n := by
  induction fuel with
  | zero => intro n h; omega
  | succ f ih =>
    intro n h
    by_cases h10 : n < 10
    · obtain ⟨d1, d2, d3, d4⟩ := digit_char n h10
      simp only [decimalDigits, h10, if_true]
      refine ⟨by simp, ?_, ?_⟩
      · intro c hc
        rw [List.mem_singleton] at hc
        subst hc
        exact ⟨d3, d4⟩
      · simp [d1, d2]
    · have hlt : n / 10 < f := by omega
      obtain ⟨i1, i2, i3⟩ := ih (n / 10) hlt
      obtain ⟨d1, d2, d3, d4⟩ := digit_char (n % 10) (Nat.mod_lt _ (by decide))
      simp only [decimalDigits, h10, if_false]
      refine ⟨by simp, ?_, ?_⟩
      · intro c hc
        rcases List.mem_append.mp hc with hc | hc
        · exact i2 c hc
        · rw [List.mem_singleton] at hc
          subst hc
          exact ⟨d3, d4⟩
      · rw [List.foldl_append, i3]
        simp only [List.foldl_cons, List.foldl_nil, d1, d2, if_true]
        congr 1
        omega

theorem digitsValue_decimalDigits (n : Nat) : digitsValue (decimalDigits (n + 1) n) = some n := by
  obtain ⟨h1, _, h3⟩ := decimalDigits_value (n + 1) n (Nat.lt_succ_self n)
  unfold digitsValue
  have he : (decimalDigits (n + 1) n).isEmpty = false := by
    cases h : decimalDigits (n + 1) n with
    | nil => exact absurd h h1
    | cons a l => rfl
  simp only [he, Bool.false_eq_true, if_false]
  exact h3

theorem ParseInt_decimalText (N : Int) (hlo : -(2 ^ 63 : Int) ≤ N) (hhi : N < (2 ^ 63 : Int)) :
    ParseInt (decimalText N) = some N := by
  obtain ⟨h1, h2, _⟩ := decimalDigits_value (N.natAbs + 1) N.natAbs (Nat.lt_succ_self _)
  have hv := digitsValue_decimalDigits N.natAbs
  by_cases hneg : N < 0
  · have hb : ¬ (N.natAbs > 2 ^ 63) := by omega
    have hN : -(N.natAbs : Int) = N := by omega
    simp [ParseInt, decimalText, hneg, hv, hb, hN]
    exact ⟨by omega, by rw [abs_of_neg hneg]; omega⟩
  · have hb : ¬ (N.natAbs ≥ 2 ^ 63) := by omega
    have hN : (N.natAbs : Int) = N := by omega
    cases hd : decimalDigits (N.natAbs + 1) N.natAbs with
    | nil => exact absurd hd h1
    | cons c rest =>
      have hc := h2 c (by rw [hd]; exact List.mem_cons_self _ _)
      rw [hd] at hv
      simp [ParseInt, decimalText, hneg, hd, hc.1, hc.2, hv, hb, hN]
      omega

theorem listed_limit (env : ApiEnv) (w : ResponseWriter) (r : Request) :
    (ListRequests env w r).listed = [(parseLimitParam env.query r).getD defaultListSize] ∧
    (ListResponses env w r).listed = [(parseLimitParam env.query r).getD defaultListSize] := by
  constructor
  · unfold ListRequests
    dsimp only
    repeat' split
    all_goals rfl
  · unfold ListResponses
    dsimp only
    repeat' split
    all_goals rfl

theorem mongoList_eq
    (find : BsonM → FindOptions → Except String (List (ObjectID × ResponseDoc)))
    (allErr : Option String) (limit : Int) (docs : List (ObjectID × ResponseDoc))
    (h : MongoResponseSaver.List find allErr limit = Except.ok docs) :
    find [] { Limit := limit, SortBy := [("_id", -1)] } = Except.ok docs := by
  unfold MongoResponseSaver.List at h
  cases hf : find [] { Limit := limit, SortBy := [("_id", -1)] } with
  | error e => rw [hf] at h; simp at h
  | ok cursor =>
    rw [hf] at h
    cases allErr with
    | some e => simp at h
    | none =>
      simp only [Except.ok.injEq] at h
      rw [h]

/-- C14 (counterexample).  With `limit=-1` the limit handed to `List` by
`ListRequests` and by `ListResponses` is -1, and no listing has at most -1
records. -/
theorem list_limit_not_a_bound :
    (ListRequests (sampleApiEnv none (Except.ok okResponse) false twoResponses)
      ResponseWriter.fresh (listRequest "limit=-1")).listed = [-1] ∧
    (ListResponses (sampleApiEnv none (Except.ok okResponse) false twoResponses)
      ResponseWriter.fresh (listRequest "limit=-1")).listed = [-1] ∧
    (∀ docs : List (ObjectID × ResponseDoc), ¬ ((docs.length : Int) ≤ -1)) ∧
    (∀ docs : List RequestData, ¬ ((docs.length : Int) ≤ -1)) := by
  refine ⟨by decide, by decide, fun docs h => ?_, fun docs h => ?_⟩ <;> omega

/-- C14 (amended).  `ListRequests` and `ListResponses` hand to `List` the
value of the `limit` query parameter, defaulting to 5: the limit is 5 when
`limit` is absent, empty or not a base-10 64-bit integer, and is `N` when it
is one, zero and negative `N` included, in particular when it is the decimal
text of an `int64` `N`; the listing written is the encoding of exactly the
records `List` returned for that limit.  `MongoResponseSaver.List` hands the
limit unchanged to the `Find` of the store, with the empty filter and the
sort by descending `_id`, and returns the records of its cursor; so the
listing has at most `N` records whenever `N` is at least 1 and the store
returns at most as many records as a positive limit asks for. -/
theorem list_limit (env : ApiEnv) (w : ResponseWriter) (r : Request) :
    (GoMap.get (env.query r.URL.RawQuery) "limit" = none →
      (ListRequests env w r).listed = [5] ∧ (ListResponses env w r).listed = [5]) ∧
    (valuesGet (env.query r.URL.RawQuery) "limit" = "" →
      (ListRequests env w r).listed = [5] ∧ (ListResponses env w r).listed = [5]) ∧
    (ParseInt (valuesGet (env.query r.URL.RawQuery) "limit") = none →
      (ListRequests env w r).listed = [5] ∧ (ListResponses env w r).listed = [5]) ∧
    (∀ N : Int, valuesGet (env.query r.URL.RawQuery) "limit" ≠ "" →
      ParseInt (valuesGet (env.query r.URL.RawQuery) "limit") = some N →
      (ListRequests env w r).listed = [N] ∧ (ListResponses env w r).listed = [N]) ∧
    (∀ N : Int, -(2 ^ 63 : Int) ≤ N → N < (2 ^ 63 : Int) →
      valuesGet (env.query r.URL.RawQuery) "limit" = decimalText N →
      (ListRequests env w r).listed = [N] ∧ (ListResponses env w r).listed = [N]) ∧
    (∀ (N : Int) (docs : List RequestData) (text : String),
      (ListRequests env ResponseWriter.fresh r).listed = [N] →
      env.requestsList N = Except.ok docs → env.encodeRequests docs = Except.ok text →
      (ListRequests env ResponseWriter.fresh r).w =
        { header := [("Content-Type", ["application/json"])], status := some 200
          body := text }) ∧
    (∀ (N : Int) (docs : List (ObjectID × ResponseDoc)) (text : String),
      (ListResponses env ResponseWriter.fresh r).listed = [N] →
      env.responsesList N = Except.ok docs → env.encodeResponses docs = Except.ok text →
      (ListResponses env ResponseWriter.fresh r).w =
        { header := [("Content-Type", ["application/json"])], status := some 200
          body := text }) ∧
    (∀ (find : BsonM → FindOptions → Except String (List (ObjectID × ResponseDoc)))
      (allErr : Option String) (N : Int) (docs : List (ObjectID × ResponseDoc)),
      MongoResponseSaver.List find allErr N = Except.ok docs →
      find [] { Limit := N, SortBy := [("_id", -1)] } = Except.ok docs) ∧
    (∀ (find : BsonM → FindOptions → Except String (List (ObjectID × ResponseDoc)))
      (allErr : Option String) (N : Int) (docs : List (ObjectID × ResponseDoc)),
      1 ≤ N →
      (∀ filter opts cursor, 1 ≤ opts.Limit → find filter opts = Except.ok cursor →
        (cursor.length : Int) ≤ opts.Limit) →
      MongoResponseSaver.List find allErr N = Except.ok docs →
      (docs.length : Int) ≤ N) := by
  obtain ⟨l1, l2⟩ := listed_limit env w r
  obtain ⟨f1, f2⟩ := listed_limit env ResponseWriter.fresh r
  rw [l1, l2]
  have hempty : valuesGet (env.query r.URL.RawQuery) "limit" = "" →
      (parseLimitParam env.query r).getD defaultListSize = 5 := by
    intro h
    simp [parseLimitParam, h, defaultListSize]
  have hsome : ∀ N : Int, valuesGet (env.query r.URL.RawQuery) "limit" ≠ "" →
      ParseInt (valuesGet (env.query r.URL.RawQuery) "limit") = some N →
      (parseLimitParam env.query r).getD defaultListSize = N := by
    intro N h1 h2
    simp [parseLimitParam, h1, h2]
  have hc : CanonicalMIMEHeaderKey "Content-Type" = "Content-Type" := canonical_content_type
  refine ⟨fun h => ?_, fun h => ?_, fun h => ?_, fun N h1 h2 => ?_, fun N hlo hhi h => ?_,
    fun N docs text hl hs he => ?_, fun N docs text hl hs he => ?_,
    fun find allErr N docs h => mongoList_eq find allErr N docs h,
    fun find allErr N docs hN hstore hl => ?_⟩
  · have : valuesGet (env.query r.URL.RawQuery) "limit" = "" := by simp [valuesGet, h]
    simp [hempty this]
  · simp [hempty h]
  · by_cases he : valuesGet (env.query r.URL.RawQuery) "limit" = ""
    · simp [hempty he]
    · simp [parseLimitParam, he, h, defaultListSize]
  · simp [hsome N h1 h2]
  · have hp := ParseInt_decimalText N hlo hhi
    have hne : decimalText N ≠ "" := by
      intro he
      rw [he] at hp
      simp [ParseInt] at hp
    rw [← h] at hp hne
    simp [hsome N hne hp]
  · rw [f1] at hl
    have hN : (parseLimitParam env.query r).getD defaultListSize = N := by simpa using hl
    simp [ListRequests, hN, hs, he, encodeJSONResponse, ResponseWriter.fresh,
      ResponseWriter.Write, ResponseWriter.WriteHeader, Header.Set, GoMap.set, hc]
  · rw [f2] at hl
    have hN : (parseLimitParam env.query r).getD defaultListSize = N := by simpa using hl
    simp [ListResponses, hN, hs, he, encodeJSONResponse, ResponseWriter.fresh,
      ResponseWriter.Write, ResponseWriter.WriteHeader, Header.Set, GoMap.set, hc]
  · have hf := mongoList_eq find allErr N docs hl
    exact hstore [] { Limit := N, SortBy := [("_id", -1)] } docs hN hf

/-- C14 (amended), at the requests `GET /responses?limit=1`,
`GET /responses?limit=abc`, `GET /requests` and
`GET /requests?limit=%ff&limit=3` (whose first value is no integer), and at
the listing written for the one record the store returns. -/
theorem list_limit_witness :
    (ListResponses (sampleApiEnv none (Except.ok okResponse) false twoResponses)
      ResponseWriter.fresh (listRequest "limit=1")).listed = [1] ∧
    (ListResponses (sampleApiEnv none (Except.ok okResponse) false twoResponses)
      ResponseWriter.fresh (listRequest "limit=abc")).listed = [5] ∧
    (ListRequests (sampleApiEnv none (Except.ok okResponse) false twoResponses)
      ResponseWriter.fresh (listRequest "")).listed = [5] ∧
    (ListRequests (sampleApiEnv none (Except.ok okResponse) false twoResponses)
      ResponseWriter.fresh (listRequest "limit=%ff&limit=3")).listed = [5] ∧
    (ListResponses (sampleApiEnv none (Except.ok okResponse) false twoResponses)
      ResponseWriter.fresh (listRequest "limit=1")).w =
        { header := [("Content-Type", ["application/json"])], status := some 200
          body := "two\n" } :=
  ⟨((list_limit (sampleApiEnv none (Except.ok okResponse) false twoResponses)
      ResponseWriter.fresh (listRequest "limit=1")).2.2.2.2.1 1 (by decide) (by decide)
      (by decide)).2,
   ((list_limit (sampleApiEnv none (Except.ok okResponse) false twoResponses)
      ResponseWriter.fresh (listRequest "limit=abc")).2.2.1 (by decide)).2,
   ((list_limit (sampleApiEnv none (Except.ok okResponse) false twoResponses)
      ResponseWriter.fresh (listRequest "")).1 (by decide)).1,
   ((list_limit (sampleApiEnv none (Except.ok okResponse) false twoResponses)
      ResponseWriter.fresh (listRequest "limit=%ff&limit=3")).2.2.1 (by decide)).1,
   (list_limit (sampleApiEnv none (Except.ok okResponse) false twoResponses)
      ResponseWriter.fresh (listRequest "limit=1")).2.2.2.2.2.2.1 1
      [([2], { code := 404, message := "Not Found", headers := [], request_id := [8]
               body := "two", timestamp := 2 })] "two\n" (by decide) (by decide) (by decide)⟩

end Proxy
